import Mathlib

/-!
# InvisioVault — verification of the data-hiding engine

Shallow embedding of the core of the InvisioVault repository:

* `backend/utils/steganography.py` — LSB steganography (`hide_file_in_image`,
  `extract_file_from_image`), with optional password-based encryption.
* `backend/utils/qr_stego.py` — the QR fragment codec (`generate_qr_with_stego`,
  `extract_from_qr_stego`), text-processing part.
* `backend/utils/polyglot.py` — polyglot composer (`create_polyglot`,
  `_fix_zip_offsets`, `extract_from_polyglot`) together with a byte-level model
  of the single-entry ZIP archives written and read by the Python `zipfile`
  module.

Byte strings are modelled as `List Nat` (each element intended `< 256`;
boundedness appears as a hypothesis exactly where the code's bit arithmetic
depends on it).  Python strings are represented by their UTF-8 byte lists.
External libraries with no source in the repository (zlib compression, Fernet
encryption, PBKDF2, AES, base64) are modelled as function parameters; theorems
assume only the pointwise round-trip facts those libraries guarantee, and
witnesses instantiate them with concrete executable functions.
-/

namespace InvisioVault

/-- Equality of results is decidable, so concrete runs can be checked by
`decide`. -/
instance {ε α : Type} [DecidableEq ε] [DecidableEq α] :
    DecidableEq (Except ε α)
  | .error e1, .error e2 =>
    if h : e1 = e2 then .isTrue (by rw [h])
    else .isFalse (by intro hc; cases hc; exact h rfl)
  | .error _, .ok _ => .isFalse (by intro hc; cases hc)
  | .ok _, .error _ => .isFalse (by intro hc; cases hc)
  | .ok a1, .ok a2 =>
    if h : a1 = a2 then .isTrue (by rw [h])
    else .isFalse (by intro hc; cases hc; exact h rfl)

/-! ## Byte-string primitives shared by all components -/

/-- Python slice `xs[start : start + len]` on a byte string: silently truncates
at the end of the buffer, never reads out of bounds. -/
def pySlice (xs : List Nat) (start len : Nat) : List Nat :=
  (xs.drop start).take len

/-- `int.from_bytes(xs, 'big')` — also matches Python on short or empty input. -/
def beVal (xs : List Nat) : Nat :=
  xs.foldl (fun acc b => acc * 256 + b) 0

/-- `n.to_bytes(2, 'big')` for `n < 2^16`. -/
def be2 (n : Nat) : List Nat := [n / 256, n % 256]

/-- `n.to_bytes(4, 'big')` for `n < 2^32`. -/
def be4 (n : Nat) : List Nat :=
  [n / 16777216, n / 65536 % 256, n / 256 % 256, n % 256]

/-- `n.to_bytes(2, 'little')`. -/
def le2 (n : Nat) : List Nat := [n % 256, n / 256]

/-- `n.to_bytes(4, 'little')`. -/
def le4 (n : Nat) : List Nat :=
  [n % 256, n / 256 % 256, n / 65536 % 256, n / 16777216]

/-- `int.from_bytes(f.read(2), 'little')` at byte offset `i`; bytes that lie
past the end of the buffer are absent, contributing nothing (Python
`from_bytes` of the shortened read). -/
def rd2 (xs : List Nat) (i : Nat) : Nat :=
  xs.getD i 0 + 256 * xs.getD (i + 1) 0

/-- `int.from_bytes(f.read(4), 'little')` at byte offset `i`. -/
def rd4 (xs : List Nat) (i : Nat) : Nat :=
  xs.getD i 0 + 256 * xs.getD (i + 1) 0 + 65536 * xs.getD (i + 2) 0 +
    16777216 * xs.getD (i + 3) 0

/-- Overwrite the four bytes at offset `pos` (Python `f.seek(pos); f.write(v)`
with `len(v) = 4`, at an in-range position). -/
def splice4 (xs : List Nat) (pos : Nat) (v : List Nat) : List Nat :=
  xs.take pos ++ v ++ xs.drop (pos + 4)

/-- Python truthiness of an optional password argument (`if password:`):
`None` and the empty string are both falsy. -/
def pwTruthy : Option String → Bool
  | none => false
  | some s => !s.isEmpty

/-- UTF-8 bytes of an ASCII string (all strings appearing in the claims are
ASCII, where UTF-8 agrees with the code points). -/
def strBytes (s : String) : List Nat := s.data.map Char.toNat

/-! ### Substring search (Python `str.find`, `bytes.find`, `bytes.rfind`,
`str.split`) -/

/-- Index of the first occurrence of `marker` in `data`
(Python `data.find(marker)`, with `-1` modelled as `none`). -/
def findSub (marker : List Nat) : List Nat → Option Nat
  | [] => if marker.isEmpty then some 0 else none
  | x :: xs =>
    if marker.isPrefixOf (x :: xs) then some 0
    else (findSub marker xs).map (· + 1)

/-- Index of the last occurrence of `marker` in `data`
(Python `data.rfind(marker)`). -/
def rfindSub (marker : List Nat) : List Nat → Option Nat
  | [] => if marker.isEmpty then some 0 else none
  | x :: xs =>
    match rfindSub marker xs with
    | some i => some (i + 1)
    | none => if marker.isPrefixOf (x :: xs) then some 0 else none

/-- Worker for `splitOnMarker`: Python `str.split(sep)` for a non-empty
separator with head `m` and tail `ms`, accumulating the current part in
reverse.  The extra fuel argument (structural, initialised to the data's
length, which every run strictly decreases slower than) only makes the
recursion structural; it is never exhausted on the initial call. -/
def splitAux (m : Nat) (ms : List Nat) : Nat → List Nat → List Nat →
    List (List Nat)
  | _, [], acc => [acc.reverse]
  | 0, l, acc => [acc.reverse ++ l]
  | fuel + 1, x :: xs, acc =>
    if (m :: ms).isPrefixOf (x :: xs) then
      acc.reverse :: splitAux m ms fuel (xs.drop ms.length) []
    else
      splitAux m ms fuel xs (x :: acc)

/-- Python `data.split(marker)` for a non-empty marker. -/
def splitOnMarker (marker data : List Nat) : List (List Nat) :=
  match marker with
  | [] => [data]
  | m :: ms => splitAux m ms data.length data []

/-! ## Channel codec (LSB embedding), from `hide_file_in_image` /
`extract_file_from_image` -/

/-- MSB-first bits of one byte: `(byte >> (7 - bit_index)) & 1` for
`bit_index = 0 .. 7` (`steganography.py`, line 115). -/
def bitsOfByte (b : Nat) : List Nat :=
  [b / 128 % 2, b / 64 % 2, b / 32 % 2, b / 16 % 2,
   b / 8 % 2, b / 4 % 2, b / 2 % 2, b % 2]

/-- The bit stream of a byte string, MSB-first within each byte. -/
def bitsOfBytes (bs : List Nat) : List Nat := bs.flatMap bitsOfByte

/-- Recompose one byte from up to 8 bits: `byte = (byte << 1) | bit` folded
over the bits (`extract_file_from_image`, lines 154–158). -/
def byteOfBits (bits : List Nat) : Nat :=
  bits.foldl (fun b bit => b * 2 + bit) 0

/-- Group a bit stream into bytes of 8 bits; a final group shorter than 8 bits
still yields a byte, exactly as the Python loop does. -/
def bytesOfBits : List Nat → List Nat
  | [] => []
  | b1 :: b2 :: b3 :: b4 :: b5 :: b6 :: b7 :: b8 :: rest =>
    byteOfBits [b1, b2, b3, b4, b5, b6, b7, b8] :: bytesOfBits rest
  | bits => [byteOfBits bits]

/-- Write a bit stream into the LSBs of a channel stream:
`channel = (channel & ~1) | bit` (`hide_file_in_image`, line 115); channels
beyond the bit stream are left unmodified. -/
def embedBits : List Nat → List Nat → List Nat
  | chs, [] => chs
  | [], _ => []
  | ch :: chs, bit :: bits => (2 * (ch / 2) + bit) :: embedBits chs bits

/-- Flatten an RGB pixel list into the channel stream, pixel-major and
channel-major within each pixel. -/
def flattenPixels (pixels : List (Nat × Nat × Nat)) : List Nat :=
  pixels.flatMap (fun p => [p.1, p.2.1, p.2.2])

/-- Regroup a channel stream into RGB pixels (inverse of `flattenPixels` on
streams whose length is a multiple of 3). -/
def chunk3 : List Nat → List (Nat × Nat × Nat)
  | a :: b :: c :: rest => (a, b, c) :: chunk3 rest
  | _ => []

/-- The byte string recovered from the LSBs of an image
(`extract_file_from_image`, lines 146–158). -/
def lsbBytes (pixels : List (Nat × Nat × Nat)) : List Nat :=
  bytesOfBits ((flattenPixels pixels).map (· % 2))

/-! ## Frame codec and steganographic engine, from `steganography.py` -/

/-- Error surface of `hide_file_in_image` / `extract_file_from_image`.
`overflow` is Python's `OverflowError` from `to_bytes` on an oversized length;
`extractFailed` is the catch-all `ValueError("Failed to extract file: ...")`
(also covering the metadata-unpack `ValueError`). -/
inductive StegoError where
  | insufficientCapacity
  | overflow
  | passwordRequired
  | incorrectPassword
  | extractFailed
deriving DecidableEq, Repr

/-- The bytes that `hide_file_in_image` embeds, given the payload that is
literally stored (post-compression, post-encryption):
`password_flag(1) || salt(16 if encrypted) || metadata_len(2 BE) || metadata
|| payload_len(4 BE) || payload` (line 100).  `metadata` is
`"{filename}|{mime_type}"` encoded in UTF-8. -/
def stegoFrame (hasPw : Bool) (salt filename mime payload : List Nat) :
    List Nat :=
  (if hasPw then [1] ++ salt else [0]) ++
    be2 (filename ++ [124] ++ mime).length ++ (filename ++ [124] ++ mime) ++
    be4 payload.length ++ payload

/-- The stored payload of `hide_file_in_image`: the zlib-compressed file data,
Fernet-encrypted under the PBKDF2-derived key when a password is given
(lines 58–66).  `comp` models `zlib.compress(·, 9)`, `kdf` models
`_derive_key_from_password`, `enc` models `Fernet(key).encrypt`. -/
def stegoPayload (enc : List Nat → List Nat → List Nat)
    (kdf : List Nat → List Nat → List Nat) (comp : List Nat → List Nat)
    (fileData : List Nat) (password : Option String) (salt : List Nat) :
    List Nat :=
  if pwTruthy password then
    enc (kdf (strBytes (password.getD "")) salt) (comp fileData)
  else
    comp fileData

/-- `hide_file_in_image` (`steganography.py`, lines 35–126) over an in-memory
RGB pixel list.  `salt` stands for the 16 random bytes of
`secrets.token_bytes(16)`.  Faithful ordering: the metadata length is encoded
(line 93, `OverflowError` when ≥ 2^16) before the payload length (line 96) and
before the capacity check (line 103); the capacity check precedes every pixel
write, so a failing call produces no output image. -/
def hide_file_in_image (enc : List Nat → List Nat → List Nat)
    (kdf : List Nat → List Nat → List Nat) (comp : List Nat → List Nat)
    (pixels : List (Nat × Nat × Nat)) (fileData filename mime : List Nat)
    (password : Option String) (salt : List Nat) :
    Except StegoError (List (Nat × Nat × Nat)) :=
  let payload := stegoPayload enc kdf comp fileData password salt
  if (filename ++ [124] ++ mime).length ≥ 65536 then .error .overflow
  else if payload.length ≥ 4294967296 then .error .overflow
  else
    let dataToHide := stegoFrame (pwTruthy password) salt filename mime payload
    if dataToHide.length * 8 > pixels.length * 3 then
      .error .insufficientCapacity
    else
      .ok (chunk3 (embedBits (flattenPixels pixels) (bitsOfBytes dataToHide)))

/-- `extract_file_from_image` (`steganography.py`, lines 129–207).
`dec` models `Fernet(key).decrypt` (`none` = `InvalidToken`), `decomp` models
`zlib.decompress` (`none` = `zlib.error`).  The UTF-8 decode of the metadata
followed by `metadata.split('|')` is modelled as a byte-level split on `0x7C`
(a byte that never occurs inside a multi-byte UTF-8 sequence); the unpack into
exactly two names fails for any other part count. -/
def extract_file_from_image (dec : List Nat → List Nat → Option (List Nat))
    (kdf : List Nat → List Nat → List Nat)
    (decomp : List Nat → Option (List Nat))
    (pixels : List (Nat × Nat × Nat)) (password : Option String) :
    Except StegoError (List Nat × List Nat × List Nat) :=
  let dataBytes := lsbBytes pixels
  match dataBytes with
  | [] => .error .extractFailed
  | flag :: _ =>
    let hasPassword := flag == 1
    if hasPassword ∧ ¬ pwTruthy password then .error .passwordRequired
    else
      let salt := if hasPassword then pySlice dataBytes 1 16 else []
      let off1 := if hasPassword then 17 else 1
      let metaLen := beVal (pySlice dataBytes off1 2)
      let metaBytes := pySlice dataBytes (off1 + 2) metaLen
      match splitOnMarker [124] metaBytes with
      | [fn, mt] =>
        let off3 := off1 + 2 + metaLen
        let dataLen := beVal (pySlice dataBytes off3 4)
        let payload := pySlice dataBytes (off3 + 4) dataLen
        let decrypted : Except StegoError (List Nat) :=
          if hasPassword then
            match dec (kdf (strBytes (password.getD "")) salt) payload with
            | some d => .ok d
            | none => .error .incorrectPassword
          else .ok payload
        match decrypted with
        | .error e => .error e
        | .ok compressedData =>
          match decomp compressedData with
          | some d => .ok (d, fn, mt)
          | none => .error .extractFailed
      | _ => .error .extractFailed

/-! ## QR fragment codec, from `qr_stego.py` (text-processing part; the QR
symbol rendering and pyzbar image decoding are external and out of scope — the
codec here maps the combined QR text to and from the hidden secret). -/

/-- Error surface of `extract_from_qr_stego`.  `invalidEncrypted` is
`ValueError("Invalid encrypted data format")`; `decodeFailed` covers base64,
unicode and padding-index failures that the function wraps generically. -/
inductive QrError where
  | passwordRequired
  | invalidEncrypted
  | decodeFailed
deriving DecidableEq, Repr

/-- The fragment delimiter `"#IVDATA:"` (`qr_stego.py`, lines 99 and 228). -/
def qrMarker : List Nat := strBytes "#IVDATA:"

/-- Python `xs[:-n]` for a non-negative `n`: empty when `n = 0` (because
`xs[:-0]` is `xs[:0]`) and truncating from the right otherwise. -/
def pySliceNegTake (xs : List Nat) (n : Nat) : List Nat :=
  if n = 0 then [] else xs.take (xs.length - n)

/-- `generate_qr_with_stego` (`qr_stego.py`, lines 58–99), producing the
combined QR text.  `aesE key iv plain` models AES-256-CBC encryption, `kdf`
models the PBKDF2 derivation (lines 65–72), `b64e` models
`base64.b64encode`, and `salt`, `iv` stand for the `os.urandom(16)` draws.
When a password is given the secret is PKCS#7-style padded (a full block when
already aligned) and the payload is `salt || iv || ciphertext`; otherwise the
payload is the raw secret bytes. -/
def generate_qr_with_stego (aesE : List Nat → List Nat → List Nat → List Nat)
    (kdf : List Nat → List Nat → List Nat) (b64e : List Nat → List Nat)
    (publicData secretText : List Nat) (password : Option String)
    (salt iv : List Nat) : List Nat :=
  let payload :=
    if pwTruthy password then
      let key := kdf (strBytes (password.getD "")) salt
      let padLen := 16 - secretText.length % 16
      let padded := secretText ++ List.replicate padLen padLen
      salt ++ iv ++ aesE key iv padded
    else secretText
  publicData ++ qrMarker ++ b64e payload

/-- `extract_from_qr_stego` (`qr_stego.py`, lines 227–297) on the decoded QR
text.  `aesD key iv ct` models AES-CBC decryption (total: CBC decryption of
any input produces bytes), `b64d` models `base64.b64decode` (`none` =
`binascii.Error`), `utf8ok` models UTF-8 decodability of the resulting bytes.
Faithful details: the padding byte is read from the last decrypted byte and
stripped with `[:-padding_length]` without any validation; with no password a
decoded payload of 32 bytes or more is treated as encrypted and rejected. -/
def extract_from_qr_stego (aesD : List Nat → List Nat → List Nat → List Nat)
    (kdf : List Nat → List Nat → List Nat)
    (b64d : List Nat → Option (List Nat)) (utf8ok : List Nat → Bool)
    (qrData : List Nat) (password : Option String) :
    Except QrError (List Nat × List Nat) :=
  if (findSub qrMarker qrData).isSome then
    match splitOnMarker qrMarker qrData with
    | [] => .error .decodeFailed
    | publicData :: rest =>
      let secretEncoded := rest.headD []
      if secretEncoded.isEmpty then .ok (publicData, [])
      else
        match b64d secretEncoded with
        | none => .error .decodeFailed
        | some secretPayload =>
          if pwTruthy password then
            if secretPayload.length < 32 then .error .invalidEncrypted
            else
              let salt := secretPayload.take 16
              let iv := pySlice secretPayload 16 16
              let encryptedData := secretPayload.drop 32
              let key := kdf (strBytes (password.getD "")) salt
              let decryptedPadded := aesD key iv encryptedData
              match decryptedPadded.getLast? with
              | none => .error .decodeFailed
              | some padLen =>
                let secretText := pySliceNegTake decryptedPadded padLen
                if utf8ok secretText then .ok (publicData, secretText)
                else .error .decodeFailed
          else
            if secretPayload.length ≥ 32 then .error .passwordRequired
            else if utf8ok secretPayload then .ok (publicData, secretPayload)
            else .error .decodeFailed
  else .ok (qrData, [])

/-- PKCS#7 padding validity, as the specification describes it ("pad value
equals pad length"): written from the spec's words, for comparison with the
code's unvalidated strip. -/
def pkcs7Valid (xs : List Nat) : Bool :=
  match xs.getLast? with
  | none => false
  | some p =>
    decide (1 ≤ p ∧ p ≤ 16 ∧ p ≤ xs.length) &&
      (pySlice xs (xs.length - p) p == List.replicate p p)

/-! ## Polyglot composer, from `polyglot.py`, with a byte-level model of the
single-entry ZIP archives written by Python's `zipfile` module -/

/-- Error surface of `create_polyglot` / `extract_from_polyglot`.  `badZip`
covers every `BadZipFile`/parse failure wrapped into the generic
`ValueError("Failed to extract from polyglot: ...")`. -/
inductive PolyError where
  | notAPolyglot
  | emptyArchive
  | badZip
  | passwordRequired
  | incorrectPassword
  | overflow
deriving DecidableEq, Repr

/-- A ZIP local file header followed by the entry's compressed bytes, as
written by `zipfile.ZipFile(..., ZIP_DEFLATED).write` for one entry with known
sizes: signature `PK\x03\x04`, version 20, flags 0, method 8 (deflate),
time/date (fixed at 0 in this model), CRC-32 (`crc`, 4 bytes, a parameter of
the model), compressed and uncompressed sizes, name length, extra length 0,
then the name and the deflate stream `comp`. -/
def zipLocalEntry (name comp : List Nat) (usize : Nat) (crc : List Nat) :
    List Nat :=
  [80, 75, 3, 4] ++ [20, 0] ++ [0, 0] ++ [8, 0] ++ [0, 0] ++ [0, 0] ++ crc ++
    le4 comp.length ++ le4 usize ++ le2 name.length ++ [0, 0] ++ name ++ comp

/-- The matching central-directory entry (46 fixed bytes plus the name):
signature `PK\x01\x02`, versions, flags 0, method 8, time/date, CRC, sizes,
name/extra/comment lengths, disk number, attributes, then the local-header
offset at byte 42 and the name. -/
def zipCdEntry (name : List Nat) (compLen usize : Nat) (crc : List Nat)
    (localOff : Nat) : List Nat :=
  [80, 75, 1, 2] ++ [20, 0] ++ [20, 0] ++ [0, 0] ++ [8, 0] ++ [0, 0] ++
    [0, 0] ++ crc ++ le4 compLen ++ le4 usize ++ le2 name.length ++ [0, 0] ++
    [0, 0] ++ [0, 0] ++ [0, 0] ++ [0, 0, 0, 0] ++ le4 localOff ++ name

/-- The end-of-central-directory record for a one-entry archive with no
comment: signature `PK\x05\x06`, disk numbers 0, entry counts 1, central
directory size and offset, comment length 0. -/
def zipEocd (sizeCd offCd : Nat) : List Nat :=
  [80, 75, 5, 6] ++ [0, 0] ++ [0, 0] ++ [1, 0] ++ [1, 0] ++ le4 sizeCd ++
    le4 offCd ++ [0, 0]

/-- The standalone one-entry archive `zipfile` produces in
`create_polyglot` (lines 55–57): local entry at offset 0, central directory
right after it, EOCD at the end. -/
def mkZipPlain (name data comp crc : List Nat) : List Nat :=
  zipLocalEntry name comp data.length crc ++
    zipCdEntry name comp.length data.length crc 0 ++
    zipEocd (46 + name.length) (30 + name.length + comp.length)

/-- The central-directory walk of `_fix_zip_offsets` (`polyglot.py`,
lines 112–136): while the 4 bytes at `cdPos` are the CD signature, add `off`
to the local-header offset stored at `cdPos + 42`, then advance by
`46 + name_len + extra_len + comment_len`.  A read past the end of the buffer
returns fewer than 4 bytes and therefore stops the walk, as in Python.
`to_bytes(4, ...)` overflow raises.  The fuel argument (structural,
initialised above the buffer length) only bounds the recursion; every
continuing step needs an in-range signature and advances `cdPos` by at least
46, so the initial fuel is never exhausted. -/
def fixCdLoop (off : Nat) : Nat → List Nat → Nat →
    Except PolyError (List Nat)
  | 0, d, _ => .ok d
  | fuel + 1, d, cdPos =>
    if pySlice d cdPos 4 = [80, 75, 1, 2] then
      let oldLoc := rd4 d (cdPos + 42)
      if oldLoc + off ≥ 4294967296 then .error .overflow
      else
        let d2 := splice4 d (cdPos + 42) (le4 (oldLoc + off))
        fixCdLoop off fuel d2
          (cdPos + 46 + rd2 d2 (cdPos + 28) + rd2 d2 (cdPos + 30) +
            rd2 d2 (cdPos + 32))
    else .ok d

/-- `_fix_zip_offsets` (`polyglot.py`, lines 82–136): locate the EOCD record
by scanning backward for its signature, add `off` to the stored
central-directory offset, then walk and patch each central-directory entry
starting from the already-patched offset. -/
def fix_zip_offsets (data : List Nat) (off : Nat) :
    Except PolyError (List Nat) :=
  match rfindSub [80, 75, 5, 6] data with
  | none => .ok data
  | some p =>
    let oldCd := rd4 data (p + 16)
    if oldCd + off ≥ 4294967296 then .error .overflow
    else
      fixCdLoop off (data.length + 1)
        (splice4 data (p + 16) (le4 (oldCd + off))) (oldCd + off)

/-- `create_polyglot` (`polyglot.py`, lines 14–79): build a one-entry archive
(via pyzipper with AES when a password is given and pyzipper is installed —
the resulting bytes are the abstract parameter `aesZipBytes` — otherwise via
the standard, password-free `zipfile`), concatenate `carrier || zip`, then fix
the archive's internal offsets by the carrier size.  `comp` is the deflate
stream for `data` and `crc` its CRC-32, both produced by external code. -/
def create_polyglot (hasPyzipper : Bool) (aesZipBytes : List Nat)
    (carrier name data comp crc : List Nat) (password : Option String) :
    Except PolyError (List Nat) :=
  let zipData :=
    if pwTruthy password && hasPyzipper then aesZipBytes
    else mkZipPlain name data comp crc
  fix_zip_offsets (carrier ++ zipData) carrier.length

/-- Read at a possibly negative seek position (negative only on malformed
input, where Python's `seek` raises and the caller maps it to the generic
failure — positions are non-negative everywhere these functions are used). -/
def intSlice (xs : List Nat) (pos : Int) (len : Nat) : List Nat :=
  if pos < 0 then [] else pySlice xs pos.toNat len

/-- `rd2` at an `Int` position. -/
def rdI2 (xs : List Nat) (pos : Int) : Nat :=
  if pos < 0 then 0 else rd2 xs pos.toNat

/-- `rd4` at an `Int` position. -/
def rdI4 (xs : List Nat) (pos : Int) : Nat :=
  if pos < 0 then 0 else rd4 xs pos.toNat

/-- Python `zipfile` opening an archive and reading its first entry, as
`extract_from_polyglot` does (lines 194–214).  Model of the external library:
the EOCD is taken from the fixed 22 bytes at the end (`_EndRecData`'s
comment-free fast path), `concat = eocd_location - size_cd - offset_cd`
compensates for data prepended before the archive, the first
central-directory entry is parsed at `offset_cd + concat`, and the entry's
bytes are read from its local header at `header_offset + concat`.  The
caller's encryption-flag check (bit 0 of the entry flags) happens before any
data is read: an encrypted entry without a password is rejected, and reading
an encrypted entry with a password is the external legacy-decryption path
`zcRead`.  `decomp` models `zlib` inflation of the stored stream. -/
def zipfileReadFirst (decomp : List Nat → Option (List Nat))
    (zcRead : List Nat → String → Except PolyError (List Nat × List Nat))
    (zipData : List Nat) (password : Option String) :
    Except PolyError (List Nat × List Nat) :=
  if zipData.length < 22 then .error .badZip
  else
    let eocdPos := zipData.length - 22
    if pySlice zipData eocdPos 4 ≠ [80, 75, 5, 6] then .error .badZip
    else if rd2 zipData (eocdPos + 20) ≠ 0 then .error .badZip
    else
      let sizeCd := rd4 zipData (eocdPos + 12)
      let offCd := rd4 zipData (eocdPos + 16)
      let concat : Int := (eocdPos : Int) - sizeCd - offCd
      if sizeCd = 0 then .error .emptyArchive
      else
        let startDir : Int := offCd + concat
        if intSlice zipData startDir 4 ≠ [80, 75, 1, 2] then .error .badZip
        else
          let flags := rdI2 zipData (startDir + 8)
          let compSize := rdI4 zipData (startDir + 20)
          let nameLen := rdI2 zipData (startDir + 28)
          let name := intSlice zipData (startDir + 46) nameLen
          let localOff := rdI4 zipData (startDir + 42)
          if flags % 2 = 1 then
            if ¬ pwTruthy password then .error .passwordRequired
            else zcRead zipData (password.getD "")
          else
            let hdrPos : Int := localOff + concat
            if intSlice zipData hdrPos 4 ≠ [80, 75, 3, 4] then .error .badZip
            else
              let lNameLen := rdI2 zipData (hdrPos + 26)
              let lExtraLen := rdI2 zipData (hdrPos + 28)
              if intSlice zipData (hdrPos + 30) lNameLen ≠ name then
                .error .badZip
              else
                let dataStart := hdrPos + 30 + lNameLen + lExtraLen
                let compData := intSlice zipData dataStart compSize
                match decomp compData with
                | some d => .ok (d, name)
                | none => .error .badZip

/-- `extract_from_polyglot` (`polyglot.py`, lines 139–222): find the first
local-file-header signature, slice from there to the end, and read the first
entry of the resulting archive.  When pyzipper is installed and a password was
supplied the archive is opened through pyzipper instead (external, the
abstract parameter `pyzRead`). -/
def extract_from_polyglot (decomp : List Nat → Option (List Nat))
    (pyzRead zcRead : List Nat → String → Except PolyError (List Nat × List Nat))
    (hasPyzipper : Bool) (data : List Nat) (password : Option String) :
    Except PolyError (List Nat × List Nat) :=
  match findSub [80, 75, 3, 4] data with
  | none => .error .notAPolyglot
  | some zipStart =>
    let zipData := data.drop zipStart
    if hasPyzipper && pwTruthy password then pyzRead zipData (password.getD "")
    else zipfileReadFirst decomp zcRead zipData password

/-! ## Supporting lemmas: slices, bytes and bits -/

theorem pySlice_append_left (a b : List Nat) (s n : Nat)
    (h : s + n ≤ a.length) : pySlice (a ++ b) s n = pySlice a s n := by
  unfold pySlice
  rw [List.drop_append_eq_append_drop, List.take_append_eq_append_take]
  have h1 : (a.drop s).length = a.length - s := List.length_drop s a
  have h2 : n - (a.drop s).length = 0 := by omega
  simp [h2]
  omega

theorem pySlice_suffix (a b : List Nat) (s n : Nat) (hs : s = a.length)
    (hn : n = b.length) : pySlice (a ++ b) s n = b := by
  subst hs hn
  unfold pySlice
  rw [List.drop_left, List.take_length]

theorem pySlice_length (xs : List Nat) (s n : Nat) :
    (pySlice xs s n).length = min n (xs.length - s) := by
  simp [pySlice]

theorem be2_lt (n : Nat) (h : n < 65536) : ∀ b ∈ be2 n, b < 256 := by
  intro b hb
  simp only [be2, List.mem_cons, List.not_mem_nil, or_false] at hb
  rcases hb with h1 | h1 <;> omega

theorem be4_lt (n : Nat) (h : n < 4294967296) : ∀ b ∈ be4 n, b < 256 := by
  intro b hb
  simp only [be4, List.mem_cons, List.not_mem_nil, or_false] at hb
  rcases hb with h1 | h1 | h1 | h1 <;> omega

theorem beVal_be2 (n : Nat) : beVal (be2 n) = n := by
  simp only [beVal, be2, List.foldl_cons, List.foldl_nil]
  omega

theorem beVal_be4 (n : Nat) : beVal (be4 n) = n := by
  simp only [beVal, be4, List.foldl_cons, List.foldl_nil]
  omega

theorem map_mod_of_lt (F : List Nat) (h : ∀ b ∈ F, b < 256) :
    F.map (· % 256) = F := by
  induction F with
  | nil => rfl
  | cons x xs ih =>
    have hx : x < 256 := h x (by simp)
    simp only [List.map_cons, Nat.mod_eq_of_lt hx, ih fun b hb => h b (by simp [hb])]

/-! ### Bit stream lemmas -/

theorem bitsOfByte_length (b : Nat) : (bitsOfByte b).length = 8 := rfl

theorem bitsOfBytes_length (bs : List Nat) :
    (bitsOfBytes bs).length = 8 * bs.length := by
  induction bs with
  | nil => rfl
  | cons x xs ih =>
    simp only [bitsOfBytes, List.flatMap_cons] at *
    simp [List.length_append, ih, bitsOfByte_length]
    omega

theorem bitsOfByte_le_one (b : Nat) : ∀ bit ∈ bitsOfByte b, bit ≤ 1 := by
  intro bit hb
  simp only [bitsOfByte, List.mem_cons, List.not_mem_nil, or_false] at hb
  rcases hb with h | h | h | h | h | h | h | h <;> subst h <;>
    exact Nat.le_of_lt_succ (Nat.mod_lt _ (by norm_num))

theorem bitsOfBytes_le_one (bs : List Nat) : ∀ bit ∈ bitsOfBytes bs, bit ≤ 1 := by
  intro bit hb
  simp only [bitsOfBytes, List.mem_flatMap] at hb
  obtain ⟨b, _, hbit⟩ := hb
  exact bitsOfByte_le_one b bit hbit

theorem byteOfBits_bitsOfByte (b : Nat) : byteOfBits (bitsOfByte b) = b % 256 := by
  simp only [byteOfBits, bitsOfByte, List.foldl_cons, List.foldl_nil]
  omega

theorem bytesOfBits_bitsOfBytes_append (F rest : List Nat) :
    bytesOfBits (bitsOfBytes F ++ rest) = F.map (· % 256) ++ bytesOfBits rest := by
  induction F with
  | nil => simp [bitsOfBytes]
  | cons x xs ih =>
    have hx : bitsOfBytes (x :: xs) ++ rest =
        x / 128 % 2 :: x / 64 % 2 :: x / 32 % 2 :: x / 16 % 2 :: x / 8 % 2 ::
          x / 4 % 2 :: x / 2 % 2 :: x % 2 :: (bitsOfBytes xs ++ rest) := by
      simp [bitsOfBytes, bitsOfByte, List.flatMap_cons, List.append_assoc]
    rw [hx]
    show byteOfBits [x / 128 % 2, x / 64 % 2, x / 32 % 2, x / 16 % 2,
      x / 8 % 2, x / 4 % 2, x / 2 % 2, x % 2] ::
        bytesOfBits (bitsOfBytes xs ++ rest) = _
    have hbyte : byteOfBits [x / 128 % 2, x / 64 % 2, x / 32 % 2, x / 16 % 2,
        x / 8 % 2, x / 4 % 2, x / 2 % 2, x % 2] = x % 256 :=
      byteOfBits_bitsOfByte x
    rw [hbyte, ih]
    rfl

theorem embedBits_length (chs bits : List Nat) :
    (embedBits chs bits).length = chs.length := by
  induction chs generalizing bits with
  | nil => cases bits <;> rfl
  | cons c cs ih =>
    cases bits with
    | nil => rfl
    | cons b bs => simp [embedBits, ih]

theorem embedBits_map_mod (chs bits : List Nat) (hb : ∀ b ∈ bits, b ≤ 1)
    (hl : bits.length ≤ chs.length) :
    (embedBits chs bits).map (· % 2) =
      bits ++ (chs.drop bits.length).map (· % 2) := by
  induction chs generalizing bits with
  | nil =>
    cases bits with
    | nil => rfl
    | cons b bs => simp at hl
  | cons c cs ih =>
    cases bits with
    | nil => simp [embedBits]
    | cons b bs =>
      have hb0 : b ≤ 1 := hb b (by simp)
      have hbit : (2 * (c / 2) + b) % 2 = b := by omega
      simp only [embedBits, List.map_cons, hbit, List.drop_succ_cons,
        List.cons_append, List.cons.injEq, true_and]
      exact ih bs (fun x hx => hb x (by simp [hx])) (by simpa using hl)

theorem flattenPixels_length (pixels : List (Nat × Nat × Nat)) :
    (flattenPixels pixels).length = 3 * pixels.length := by
  induction pixels with
  | nil => rfl
  | cons p ps ih =>
    simp only [flattenPixels, List.flatMap_cons] at *
    simp [ih]
    omega

theorem flattenPixels_chunk3 (chs : List Nat) (h : chs.length % 3 = 0) :
    flattenPixels (chunk3 chs) = chs := by
  match chs with
  | [] => rfl
  | [a] => simp at h
  | [a, b] => simp at h
  | a :: b :: c :: rest =>
    have hr : rest.length % 3 = 0 := by
      simp only [List.length_cons] at h
      omega
    simp only [chunk3, flattenPixels, List.flatMap_cons]
    rw [← flattenPixels]
    rw [flattenPixels_chunk3 rest hr]
    rfl

theorem pySlice_chop (a b : List Nat) (s n : Nat) (h : a.length ≤ s) :
    pySlice (a ++ b) s n = pySlice b (s - a.length) n := by
  unfold pySlice
  rw [List.drop_append_eq_append_drop, List.drop_eq_nil_of_le h,
    List.nil_append]

theorem pySlice_cons_chop (x : Nat) (xs : List Nat) (s n : Nat) (h : 1 ≤ s) :
    pySlice (x :: xs) s n = pySlice xs (s - 1) n := by
  have : x :: xs = [x] ++ xs := rfl
  rw [this, pySlice_chop [x] xs s n (by simpa using h)]
  rfl

theorem pySlice_here (a b : List Nat) (n : Nat) (h : n = a.length) :
    pySlice (a ++ b) 0 n = a := by
  subst h
  simp [pySlice, List.take_left]

/-! ### Split lemmas (Python `split` on a non-empty separator) -/

theorem isPrefixOf_head_mem {m x : Nat} {ms xs : List Nat}
    (h : (m :: ms).isPrefixOf (x :: xs) = true) : m = x := by
  simp only [List.isPrefixOf, Bool.and_eq_true, beq_iff_eq] at h
  exact h.1

theorem isPrefixOf_self_append (l t : List Nat) :
    l.isPrefixOf (l ++ t) = true := by
  induction l with
  | nil => simp [List.isPrefixOf]
  | cons x xs ih => simp [List.isPrefixOf, ih]

theorem splitAux_no_occ (m : Nat) (ms b : List Nat) (hb : m ∉ b) :
    ∀ fuel acc, b.length ≤ fuel →
      splitAux m ms fuel b acc = [acc.reverse ++ b] := by
  induction b with
  | nil => intro fuel acc _; cases fuel <;> simp [splitAux]
  | cons x xs ih =>
    intro fuel acc hfuel
    cases fuel with
    | zero => simp at hfuel
    | succ f =>
      have hx : m ≠ x := fun h => hb (h ▸ List.mem_cons_self x xs)
      have hpre : (m :: ms).isPrefixOf (x :: xs) = false := by
        cases hp : (m :: ms).isPrefixOf (x :: xs) with
        | false => rfl
        | true => exact absurd (isPrefixOf_head_mem hp) hx
      simp only [splitAux, hpre, Bool.false_eq_true, if_false]
      rw [ih (fun hmem => hb (List.mem_cons_of_mem x hmem)) f (x :: acc)
        (by simp only [List.length_cons] at hfuel; omega)]
      simp

theorem splitAux_one_occ (m : Nat) (ms a b : List Nat) (ha : m ∉ a)
    (hb : m ∉ b) : ∀ fuel acc, (a ++ (m :: ms) ++ b).length ≤ fuel →
    splitAux m ms fuel (a ++ (m :: ms) ++ b) acc = [acc.reverse ++ a, b] := by
  induction a with
  | nil =>
    intro fuel acc hfuel
    have hshape : ([] : List Nat) ++ (m :: ms) ++ b = m :: (ms ++ b) := by simp
    rw [hshape] at hfuel ⊢
    cases fuel with
    | zero => simp at hfuel
    | succ f =>
      have hpre : (m :: ms).isPrefixOf (m :: (ms ++ b)) = true :=
        isPrefixOf_self_append (m :: ms) b
      simp only [splitAux, hpre, if_true]
      rw [List.drop_left, splitAux_no_occ m ms b hb f []
        (by simp only [List.length_cons, List.length_append] at hfuel; omega)]
      simp
  | cons x xs ih =>
    intro fuel acc hfuel
    have hx : m ≠ x := fun h => ha (h ▸ List.mem_cons_self x xs)
    have hshape : (x :: xs) ++ (m :: ms) ++ b =
        x :: (xs ++ (m :: ms) ++ b) := by simp
    rw [hshape] at hfuel ⊢
    cases fuel with
    | zero => simp at hfuel
    | succ f =>
      have hpre : (m :: ms).isPrefixOf (x :: (xs ++ (m :: ms) ++ b)) =
          false := by
        cases hp : (m :: ms).isPrefixOf (x :: (xs ++ (m :: ms) ++ b)) with
        | false => rfl
        | true => exact absurd (isPrefixOf_head_mem hp) hx
      simp only [splitAux, hpre, Bool.false_eq_true, if_false]
      rw [ih (fun hmem => ha (List.mem_cons_of_mem x hmem)) f (x :: acc)
        (by simp only [List.length_cons] at hfuel ⊢; omega)]
      simp

theorem splitOnMarker_one_occ (m : Nat) (ms a b : List Nat) (ha : m ∉ a)
    (hb : m ∉ b) : splitOnMarker (m :: ms) (a ++ (m :: ms) ++ b) = [a, b] := by
  rw [splitOnMarker, splitAux_one_occ m ms a b ha hb _ [] (le_refl _)]
  rfl

theorem splitAux_single_length (m : Nat) (xs : List Nat) :
    ∀ fuel acc, xs.length ≤ fuel →
      (splitAux m [] fuel xs acc).length = xs.count m + 1 := by
  induction xs with
  | nil => intro fuel acc _; cases fuel <;> simp [splitAux]
  | cons x xs ih =>
    intro fuel acc hfuel
    cases fuel with
    | zero => simp at hfuel
    | succ f =>
      by_cases hx : m = x
      · subst hx
        have hpre : [m].isPrefixOf (m :: xs) = true := by
          simp [List.isPrefixOf]
        simp only [splitAux, hpre, if_true, List.length_nil, List.drop_zero,
          List.length_cons]
        rw [ih f [] (by simp only [List.length_cons] at hfuel; omega)]
        simp [List.count_cons]
      · have hpre : [m].isPrefixOf (x :: xs) = false := by
          cases hp : [m].isPrefixOf (x :: xs) with
          | false => rfl
          | true => exact absurd (isPrefixOf_head_mem hp) hx
        simp only [splitAux, hpre, Bool.false_eq_true, if_false,
          List.length_nil, List.drop_zero]
        rw [ih f (x :: acc) (by simp only [List.length_cons] at hfuel; omega)]
        simp [List.count_cons, Ne.symm hx]

theorem splitOnMarker_single_length (m : Nat) (xs : List Nat) :
    (splitOnMarker [m] xs).length = xs.count m + 1 := by
  rw [splitOnMarker, splitAux_single_length m xs xs.length [] (le_refl _)]

/-! ### Behaviour of `extract_file_from_image` on a recovered frame -/

theorem stegoFrame_length (hasPw : Bool) (salt fn mt payload : List Nat) :
    (stegoFrame hasPw salt fn mt payload).length =
      (if hasPw then 1 + salt.length else 1) + 2 +
        (fn.length + 1 + mt.length) + 4 + payload.length := by
  cases hasPw <;>
    simp [stegoFrame, be2, be4, List.length_append] <;> omega

theorem stegoFrame_bytes_lt (hasPw : Bool) (salt fn mt payload : List Nat)
    (hsalt : ∀ b ∈ salt, b < 256) (hfn : ∀ b ∈ fn, b < 256)
    (hmt : ∀ b ∈ mt, b < 256) (hpay : ∀ b ∈ payload, b < 256)
    (hm : (fn ++ [124] ++ mt).length < 65536)
    (hp : payload.length < 4294967296) :
    ∀ b ∈ stegoFrame hasPw salt fn mt payload, b < 256 := by
  intro b hb
  cases hasPw with
  | false =>
    simp only [stegoFrame, Bool.false_eq_true, if_false, List.append_assoc,
      List.mem_append, List.mem_cons, List.not_mem_nil, or_false] at hb
    rcases hb with h | h | h | h | h | h | h
    · omega
    · exact be2_lt _ (by simpa [List.append_assoc] using hm) b
        (by simpa [List.append_assoc] using h)
    · exact hfn b h
    · omega
    · exact hmt b h
    · exact be4_lt _ hp b h
    · exact hpay b h
  | true =>
    simp only [stegoFrame, if_true, List.append_assoc, List.mem_append,
      List.mem_cons, List.not_mem_nil, or_false] at hb
    rcases hb with h | h | h | h | h | h | h | h
    · omega
    · exact hsalt b h
    · exact be2_lt _ (by simpa [List.append_assoc] using hm) b
        (by simpa [List.append_assoc] using h)
    · exact hfn b h
    · omega
    · exact hmt b h
    · exact be4_lt _ hp b h
    · exact hpay b h

theorem lsbBytes_embed (pixels : List (Nat × Nat × Nat)) (F : List Nat)
    (hB : ∀ b ∈ F, b < 256) (hcap : F.length * 8 ≤ pixels.length * 3) :
    lsbBytes (chunk3 (embedBits (flattenPixels pixels) (bitsOfBytes F))) =
      F ++ bytesOfBits
        (((flattenPixels pixels).drop (8 * F.length)).map (· % 2)) := by
  unfold lsbBytes
  rw [flattenPixels_chunk3 _ (by
    rw [embedBits_length, flattenPixels_length]
    omega)]
  rw [embedBits_map_mod _ _ (bitsOfBytes_le_one F) (by
    rw [bitsOfBytes_length, flattenPixels_length]
    omega)]
  rw [bitsOfBytes_length, bytesOfBits_bitsOfBytes_append, map_mod_of_lt F hB]

theorem hide_ok (enc : List Nat → List Nat → List Nat)
    (kdf : List Nat → List Nat → List Nat) (comp : List Nat → List Nat)
    (pixels : List (Nat × Nat × Nat)) (fileData fn mt : List Nat)
    (password : Option String) (salt : List Nat)
    (hm : (fn ++ [124] ++ mt).length < 65536)
    (hp : (stegoPayload enc kdf comp fileData password salt).length <
      4294967296)
    (hcap : (stegoFrame (pwTruthy password) salt fn mt
      (stegoPayload enc kdf comp fileData password salt)).length * 8 ≤
        pixels.length * 3) :
    hide_file_in_image enc kdf comp pixels fileData fn mt password salt =
      .ok (chunk3 (embedBits (flattenPixels pixels)
        (bitsOfBytes (stegoFrame (pwTruthy password) salt fn mt
          (stegoPayload enc kdf comp fileData password salt))))) := by
  rw [hide_file_in_image]
  rw [if_neg (by omega), if_neg (by omega), if_neg (by omega)]

theorem extract_flag1_falsy (dec : List Nat → List Nat → Option (List Nat))
    (kdf : List Nat → List Nat → List Nat)
    (decomp : List Nat → Option (List Nat))
    (pixels : List (Nat × Nat × Nat)) (password : Option String)
    (hflag : (lsbBytes pixels).head? = some 1)
    (hpw : pwTruthy password = false) :
    extract_file_from_image dec kdf decomp pixels password =
      .error .passwordRequired := by
  rw [extract_file_from_image]
  cases hbytes : lsbBytes pixels with
  | nil => rw [hbytes] at hflag; simp at hflag
  | cons flag rest =>
    rw [hbytes] at hflag
    simp only [List.head?_cons, Option.some.injEq] at hflag
    subst hflag
    simp [hpw]

theorem stegoFrame_true_head (salt fn mt payload G : List Nat) :
    (stegoFrame true salt fn mt payload ++ G).head? = some 1 := by
  simp [stegoFrame]

theorem extract_frame_pw_split (dec : List Nat → List Nat → Option (List Nat))
    (kdf : List Nat → List Nat → List Nat)
    (decomp : List Nat → Option (List Nat))
    (pixels : List (Nat × Nat × Nat)) (pw : String)
    (salt fn mt payload G : List Nat)
    (hlsb : lsbBytes pixels = stegoFrame true salt fn mt payload ++ G)
    (hsalt : salt.length = 16)
    (hpw : pw.isEmpty = false) :
    extract_file_from_image dec kdf decomp pixels (some pw) =
      match splitOnMarker [124] (fn ++ [124] ++ mt) with
      | [a, b] =>
        match dec (kdf (strBytes pw) salt) payload with
        | some c =>
          match decomp c with
          | some r => .ok (r, a, b)
          | none => .error .extractFailed
        | none => .error .incorrectPassword
      | _ => .error .extractFailed := by
  have hT : stegoFrame true salt fn mt payload ++ G =
      1 :: (salt ++ (be2 (fn ++ [124] ++ mt).length ++ ((fn ++ [124] ++ mt) ++
        (be4 payload.length ++ (payload ++ G))))) := by
    simp [stegoFrame, List.append_assoc]
  set M := (fn ++ [124] ++ mt).length with hM
  set T : List Nat := salt ++ (be2 M ++ ((fn ++ [124] ++ mt) ++
    (be4 payload.length ++ (payload ++ G)))) with hTdef
  have hA : pySlice (1 :: T) 1 16 = salt := by
    rw [pySlice_cons_chop 1 T 1 16 (by omega)]
    rw [hTdef]
    exact pySlice_here _ _ _ hsalt.symm
  have hB : pySlice (1 :: T) 17 2 = be2 M := by
    rw [pySlice_cons_chop 1 T 17 2 (by omega), hTdef]
    rw [pySlice_chop salt _ 16 2 (by omega)]
    rw [hsalt]
    exact pySlice_here _ _ _ rfl
  have hC : pySlice (1 :: T) 19 M = fn ++ [124] ++ mt := by
    rw [pySlice_cons_chop 1 T 19 M (by omega), hTdef]
    rw [pySlice_chop salt _ 18 M (by omega), hsalt]
    rw [pySlice_chop (be2 M) _ 2 M (by simp [be2])]
    have h2 : (2 : Nat) - (be2 M).length = 0 := by simp [be2]
    rw [h2]
    exact pySlice_here _ _ _ hM
  have hD : pySlice (1 :: T) (19 + M) 4 = be4 payload.length := by
    rw [pySlice_cons_chop 1 T (19 + M) 4 (by omega), hTdef]
    have e1 : 19 + M - 1 = 18 + M := by omega
    rw [e1, pySlice_chop salt _ (18 + M) 4 (by omega), hsalt]
    have e2 : 18 + M - 16 = 2 + M := by omega
    rw [e2, pySlice_chop (be2 M) _ (2 + M) 4 (by simp [be2])]
    have e3 : 2 + M - (be2 M).length = M := by
      simp only [be2, List.length_cons, List.length_nil]
      omega
    rw [e3, pySlice_chop (fn ++ [124] ++ mt) _ M 4 (by omega)]
    have e4 : M - (fn ++ [124] ++ mt).length = 0 := by omega
    rw [e4]
    exact pySlice_here _ _ _ (by simp [be4])
  have hE : pySlice (1 :: T) (19 + M + 4) payload.length = payload := by
    rw [pySlice_cons_chop 1 T (19 + M + 4) payload.length (by omega), hTdef]
    have e1 : 19 + M + 4 - 1 = 22 + M := by omega
    rw [e1, pySlice_chop salt _ (22 + M) payload.length (by omega), hsalt]
    have e2 : 22 + M - 16 = 6 + M := by omega
    rw [e2, pySlice_chop (be2 M) _ (6 + M) payload.length
      (by simp only [be2, List.length_cons, List.length_nil]; omega)]
    have e3 : 6 + M - (be2 M).length = 4 + M := by
      simp only [be2, List.length_cons, List.length_nil]
      omega
    rw [e3,
      pySlice_chop (fn ++ [124] ++ mt) _ (4 + M) payload.length (by omega)]
    have e4 : 4 + M - (fn ++ [124] ++ mt).length = 4 := by omega
    rw [e4, pySlice_chop (be4 payload.length) _ 4 payload.length
      (by simp [be4])]
    have e5 : (4 : Nat) - (be4 payload.length).length = 0 := by simp [be4]
    rw [e5]
    exact pySlice_here _ _ _ rfl
  rw [extract_file_from_image, hlsb, hT]
  simp only [beq_self_eq_true, if_true, pwTruthy, hpw, Bool.not_false,
    and_false, not_true_eq_false, and_true, Bool.not_eq_true, if_false,
    ite_true, ite_false, Option.getD_some]
  rw [hA, hB, beVal_be2, hC]
  have h19 : 17 + 2 = 19 := rfl
  rw [h19, hD, beVal_be4, hE]
  cases splitOnMarker [124] (fn ++ [124] ++ mt) with
  | nil => rfl
  | cons a rest =>
    cases rest with
    | nil => rfl
    | cons b rest2 =>
      cases rest2 with
      | nil =>
        cases dec (kdf (strBytes pw) salt) payload with
        | none => rfl
        | some c => cases decomp c <;> rfl
      | cons c rest3 => rfl

theorem extract_frame_pw (dec : List Nat → List Nat → Option (List Nat))
    (kdf : List Nat → List Nat → List Nat)
    (decomp : List Nat → Option (List Nat))
    (pixels : List (Nat × Nat × Nat)) (pw : String)
    (salt fn mt payload G : List Nat)
    (hlsb : lsbBytes pixels = stegoFrame true salt fn mt payload ++ G)
    (hsalt : salt.length = 16)
    (hfn : ¬ 124 ∈ fn) (hmt : ¬ 124 ∈ mt)
    (hpw : pw.isEmpty = false) :
    extract_file_from_image dec kdf decomp pixels (some pw) =
      match dec (kdf (strBytes pw) salt) payload with
      | some c =>
        match decomp c with
        | some r => .ok (r, fn, mt)
        | none => .error .extractFailed
      | none => .error .incorrectPassword := by
  rw [extract_frame_pw_split dec kdf decomp pixels pw salt fn mt payload G
    hlsb hsalt hpw, splitOnMarker_one_occ 124 [] fn mt hfn hmt]

theorem extract_frame_nopw_split (dec : List Nat → List Nat → Option (List Nat))
    (kdf : List Nat → List Nat → List Nat)
    (decomp : List Nat → Option (List Nat))
    (pixels : List (Nat × Nat × Nat)) (password : Option String)
    (fn mt payload G : List Nat)
    (hlsb : lsbBytes pixels = stegoFrame false [] fn mt payload ++ G) :
    extract_file_from_image dec kdf decomp pixels password =
      match splitOnMarker [124] (fn ++ [124] ++ mt) with
      | [a, b] =>
        match decomp payload with
        | some r => .ok (r, a, b)
        | none => .error .extractFailed
      | _ => .error .extractFailed := by
  have hT : stegoFrame false [] fn mt payload ++ G =
      0 :: (be2 (fn ++ [124] ++ mt).length ++ ((fn ++ [124] ++ mt) ++
        (be4 payload.length ++ (payload ++ G)))) := by
    simp [stegoFrame, List.append_assoc]
  set M := (fn ++ [124] ++ mt).length with hM
  set T : List Nat := be2 M ++ ((fn ++ [124] ++ mt) ++
    (be4 payload.length ++ (payload ++ G))) with hTdef
  have hB : pySlice (0 :: T) 1 2 = be2 M := by
    rw [pySlice_cons_chop 0 T 1 2 (by omega), hTdef]
    exact pySlice_here _ _ _ rfl
  have hC : pySlice (0 :: T) 3 M = fn ++ [124] ++ mt := by
    rw [pySlice_cons_chop 0 T 3 M (by omega), hTdef]
    rw [pySlice_chop (be2 M) _ 2 M (by simp [be2])]
    have h2 : (2 : Nat) - (be2 M).length = 0 := by simp [be2]
    rw [h2]
    exact pySlice_here _ _ _ hM
  have hD : pySlice (0 :: T) (3 + M) 4 = be4 payload.length := by
    rw [pySlice_cons_chop 0 T (3 + M) 4 (by omega), hTdef]
    have e1 : 3 + M - 1 = 2 + M := by omega
    rw [e1, pySlice_chop (be2 M) _ (2 + M) 4 (by simp [be2])]
    have e3 : 2 + M - (be2 M).length = M := by
      simp only [be2, List.length_cons, List.length_nil]
      omega
    rw [e3, pySlice_chop (fn ++ [124] ++ mt) _ M 4 (by omega)]
    have e4 : M - (fn ++ [124] ++ mt).length = 0 := by omega
    rw [e4]
    exact pySlice_here _ _ _ (by simp [be4])
  have hE : pySlice (0 :: T) (3 + M + 4) payload.length = payload := by
    rw [pySlice_cons_chop 0 T (3 + M + 4) payload.length (by omega), hTdef]
    have e1 : 3 + M + 4 - 1 = 6 + M := by omega
    rw [e1, pySlice_chop (be2 M) _ (6 + M) payload.length
      (by simp only [be2, List.length_cons, List.length_nil]; omega)]
    have e3 : 6 + M - (be2 M).length = 4 + M := by
      simp only [be2, List.length_cons, List.length_nil]
      omega
    rw [e3,
      pySlice_chop (fn ++ [124] ++ mt) _ (4 + M) payload.length (by omega)]
    have e4 : 4 + M - (fn ++ [124] ++ mt).length = 4 := by omega
    rw [e4, pySlice_chop (be4 payload.length) _ 4 payload.length
      (by simp [be4])]
    have e5 : (4 : Nat) - (be4 payload.length).length = 0 := by simp [be4]
    rw [e5]
    exact pySlice_here _ _ _ rfl
  rw [extract_file_from_image, hlsb, hT]
  simp only [Nat.zero_ne_one, beq_iff_eq, if_false, false_and, ite_false]
  rw [hB, beVal_be2, hC]
  have h3 : 1 + 2 = 3 := rfl
  rw [h3, hD, beVal_be4, hE]

theorem extract_frame_nopw (dec : List Nat → List Nat → Option (List Nat))
    (kdf : List Nat → List Nat → List Nat)
    (decomp : List Nat → Option (List Nat))
    (pixels : List (Nat × Nat × Nat)) (password : Option String)
    (fn mt payload G : List Nat)
    (hlsb : lsbBytes pixels = stegoFrame false [] fn mt payload ++ G)
    (hfn : ¬ 124 ∈ fn) (hmt : ¬ 124 ∈ mt) :
    extract_file_from_image dec kdf decomp pixels password =
      match decomp payload with
      | some r => .ok (r, fn, mt)
      | none => .error .extractFailed := by
  rw [extract_frame_nopw_split dec kdf decomp pixels password fn mt payload G
    hlsb, splitOnMarker_one_occ 124 [] fn mt hfn hmt]

/-! ## Helper: a pipe byte in the filename makes the metadata split produce at
least three parts -/

theorem splitOnMarker_ge3 (fn mt : List Nat) (h : 124 ∈ fn) :
    ∃ a b c r, splitOnMarker [124] (fn ++ [124] ++ mt) = a :: b :: c :: r := by
  have hlen := splitOnMarker_single_length 124 (fn ++ [124] ++ mt)
  have hcnt : 2 ≤ (fn ++ [124] ++ mt).count 124 := by
    rw [List.count_append, List.count_append]
    have h1 : 1 ≤ fn.count 124 := List.one_le_count_iff.mpr h
    have h2 : ([124] : List Nat).count 124 = 1 := by simp
    omega
  cases hs : splitOnMarker [124] (fn ++ [124] ++ mt) with
  | nil =>
    rw [hs] at hlen
    simp only [List.length_nil] at hlen
    omega
  | cons a t =>
    cases t with
    | nil =>
      rw [hs] at hlen
      simp only [List.length_cons, List.length_nil] at hlen
      omega
    | cons b t2 =>
      cases t2 with
      | nil =>
        rw [hs] at hlen
        simp only [List.length_cons, List.length_nil] at hlen
        omega
      | cons c r => exact ⟨a, b, c, r, rfl⟩

/-! ## Claim C1 -/

set_option maxRecDepth 10000 in
/-- Claim C1, counterexample: the round-trip fails as stated when the hidden
file's name contains the pipe byte `0x7C`.  With carrier capacity ample,
filename `"|"` and MIME `"b"`, `hide` succeeds but extracting the produced
image (same — absent — password) fails, instead of returning the payload:
the metadata `"||b"` splits into three parts.  Compression and encryption are
instantiated with identity functions, which satisfy every round-trip law the
external libraries guarantee. -/
theorem C1_roundtrip_pipe_ctrex :
    (hide_file_in_image (fun _ x => x) (fun _ s => s) (fun x => x)
        (List.replicate 40 ((6, 7, 8) : Nat × Nat × Nat)) [1, 2, 3] [124] [98]
        none []).bind
      (fun img => extract_file_from_image (fun _ x => some x) (fun _ s => s)
        (fun x => some x) img none) = .error .extractFailed ∧
    (hide_file_in_image (fun _ x => x) (fun _ s => s) (fun x => x)
        (List.replicate 40 ((6, 7, 8) : Nat × Nat × Nat)) [1, 2, 3] [124] [98]
        none []).map (fun _ => 0) = .ok 0 := by
  constructor
  · decide
  · decide

/-- Claim C1 (corrected): the stated round-trip
`extract(hide(carrier, p, filename, mime, w), w) = (p, filename, mime)` holds
for every payload, carrier of sufficient capacity and optional password,
provided the filename and MIME type contain no pipe byte `0x7C` (the metadata
separator) — without that restriction the claim fails
(`C1_roundtrip_pipe_ctrex`).  Compression (`comp`/`decomp`), the KDF and
Fernet (`enc`/`dec`) are abstract parameters constrained only by their
round-trip laws at the values used; byte-validity hypotheses say the inputs
are genuine byte strings. -/
theorem C1_roundtrip_amended
    (enc : List Nat → List Nat → List Nat)
    (dec : List Nat → List Nat → Option (List Nat))
    (kdf : List Nat → List Nat → List Nat)
    (comp : List Nat → List Nat) (decomp : List Nat → Option (List Nat))
    (pixels : List (Nat × Nat × Nat)) (fileData fn mt salt : List Nat)
    (password : Option String)
    (hfn124 : ¬ 124 ∈ fn) (hmt124 : ¬ 124 ∈ mt)
    (hfnB : ∀ b ∈ fn, b < 256) (hmtB : ∀ b ∈ mt, b < 256)
    (hsaltB : ∀ b ∈ salt, b < 256) (hsaltL : salt.length = 16)
    (hm : (fn ++ [124] ++ mt).length < 65536)
    (hpayB : ∀ b ∈ stegoPayload enc kdf comp fileData password salt, b < 256)
    (hp : (stegoPayload enc kdf comp fileData password salt).length <
      4294967296)
    (hcap : (stegoFrame (pwTruthy password) salt fn mt
      (stegoPayload enc kdf comp fileData password salt)).length * 8 ≤
        pixels.length * 3)
    (hcomp : decomp (comp fileData) = some fileData)
    (hdec : ∀ pw : String, password = some pw →
      dec (kdf (strBytes pw) salt)
        (enc (kdf (strBytes pw) salt) (comp fileData)) = some (comp fileData)) :
    (hide_file_in_image enc kdf comp pixels fileData fn mt password salt).bind
      (fun img => extract_file_from_image dec kdf decomp img password) =
      .ok (fileData, fn, mt) := by
  rw [hide_ok enc kdf comp pixels fileData fn mt password salt hm hp hcap]
  show extract_file_from_image dec kdf decomp _ password = _
  have hframeB := stegoFrame_bytes_lt (pwTruthy password) salt fn mt
    (stegoPayload enc kdf comp fileData password salt) hsaltB hfnB hmtB hpayB
    hm hp
  have hlsb := lsbBytes_embed pixels
    (stegoFrame (pwTruthy password) salt fn mt
      (stegoPayload enc kdf comp fileData password salt)) hframeB (by omega)
  cases hpw : pwTruthy password with
  | false =>
    have hpay_eq : stegoPayload enc kdf comp fileData password salt =
        comp fileData := by
      rw [stegoPayload, hpw]
      simp
    rw [hpw] at hlsb
    rw [extract_frame_nopw dec kdf decomp _ password fn mt _ _ hlsb hfn124
      hmt124, hpay_eq]
    simp [hcomp]
  | true =>
    obtain ⟨pw, hpwEq⟩ : ∃ pw, password = some pw := by
      cases password with
      | none => simp [pwTruthy] at hpw
      | some pw => exact ⟨pw, rfl⟩
    subst hpwEq
    have hpwEmpty : pw.isEmpty = false := by
      simpa [pwTruthy] using hpw
    have hpay_eq : stegoPayload enc kdf comp fileData (some pw) salt =
        enc (kdf (strBytes pw) salt) (comp fileData) := by
      rw [stegoPayload, hpw]
      simp
    rw [hpw] at hlsb
    rw [extract_frame_pw dec kdf decomp _ pw salt fn mt _ _ hlsb hsaltL hfn124
      hmt124 hpwEmpty, hpay_eq, hdec pw rfl]
    simp [hcomp]

set_option maxRecDepth 40000 in
/-- Claim C1 witness: the amended round-trip at a concrete input — carrier of
130 RGB pixels, payload `[1,2,3]`, filename `"a"`, MIME `"b"`,
password `"pw"`, a concrete 16-byte salt, and executable stand-ins for the
external compression and encryption that satisfy the round-trip laws. -/
theorem C1_roundtrip_amended_witness :
    ((stegoFrame (pwTruthy (some "pw")) (List.range 16) [97] [98]
        (stegoPayload (fun k x => k ++ x) (fun pwb s => pwb ++ s) (fun x => x)
          [1, 2, 3] (some "pw") (List.range 16))).length * 8 ≤
      (List.replicate 130 ((6, 7, 8) : Nat × Nat × Nat)).length * 3) ∧
    (hide_file_in_image (fun k x => k ++ x) (fun pwb s => pwb ++ s)
        (fun x => x) (List.replicate 130 ((6, 7, 8) : Nat × Nat × Nat))
        [1, 2, 3] [97] [98] (some "pw") (List.range 16)).bind
      (fun img => extract_file_from_image
        (fun k y => if y.take k.length = k then some (y.drop k.length)
          else none)
        (fun pwb s => pwb ++ s) (fun x => some x) img (some "pw")) =
      .ok ([1, 2, 3], [97], [98]) := by
  constructor
  · decide
  · exact C1_roundtrip_amended (fun k x => k ++ x)
      (fun k y => if y.take k.length = k then some (y.drop k.length) else none)
      (fun pwb s => pwb ++ s) (fun x => x) (fun x => some x)
      (List.replicate 130 ((6, 7, 8) : Nat × Nat × Nat)) [1, 2, 3] [97] [98]
      (List.range 16) (some "pw") (by decide) (by decide) (by decide)
      (by decide) (by decide) (by decide) (by decide) (by decide) (by decide)
      (by decide) (by decide)
      (fun pw hpw => by
        cases hpw
        decide)

/-! ## Claim C3 -/

/-- Claim C3 (confirmed): `hide_file_in_image` fails with
`InsufficientCapacity` exactly when the encoded frame's byte length times 8
exceeds `pixel_count * 3` (first conjunct, an iff); a carrier whose bit
budget exactly equals the frame's bit size succeeds (second conjunct); and
any variant of the stored payload that is one byte longer — hence a frame one
byte longer — fails on that exactly-fitting carrier (third conjunct).  The
hypotheses say only that the frame is encodable (`to_bytes` does not
overflow).  In this pure embedding the all-or-nothing property is captured by
`hide` returning an error and no image at all: the capacity test in the code
(line 103) precedes the embedding loop, and the model produces output only in
the success branch. -/
theorem C3_capacity_check (enc : List Nat → List Nat → List Nat)
    (kdf : List Nat → List Nat → List Nat) (comp : List Nat → List Nat)
    (pixels : List (Nat × Nat × Nat)) (fileData fn mt salt : List Nat)
    (password : Option String)
    (hm : (fn ++ [124] ++ mt).length < 65536)
    (hp : (stegoPayload enc kdf comp fileData password salt).length <
      4294967296) :
    (hide_file_in_image enc kdf comp pixels fileData fn mt password salt =
        .error .insufficientCapacity ↔
      (stegoFrame (pwTruthy password) salt fn mt
        (stegoPayload enc kdf comp fileData password salt)).length * 8 >
        pixels.length * 3) ∧
    ((stegoFrame (pwTruthy password) salt fn mt
        (stegoPayload enc kdf comp fileData password salt)).length * 8 =
        pixels.length * 3 →
      hide_file_in_image enc kdf comp pixels fileData fn mt password salt =
        .ok (chunk3 (embedBits (flattenPixels pixels)
          (bitsOfBytes (stegoFrame (pwTruthy password) salt fn mt
            (stegoPayload enc kdf comp fileData password salt)))))) ∧
    (∀ (enc2 : List Nat → List Nat → List Nat) (comp2 : List Nat → List Nat),
      (stegoPayload enc2 kdf comp2 fileData password salt).length =
        (stegoPayload enc kdf comp fileData password salt).length + 1 →
      (stegoPayload enc2 kdf comp2 fileData password salt).length <
        4294967296 →
      (stegoFrame (pwTruthy password) salt fn mt
        (stegoPayload enc kdf comp fileData password salt)).length * 8 =
        pixels.length * 3 →
      hide_file_in_image enc2 kdf comp2 pixels fileData fn mt password salt =
        .error .insufficientCapacity) := by
  refine ⟨⟨fun herr => ?_, fun hgt => ?_⟩, fun heq => ?_,
    fun enc2 comp2 hlen2 hp2 heq => ?_⟩
  · by_contra hle
    rw [hide_ok enc kdf comp pixels fileData fn mt password salt hm hp
      (by omega)] at herr
    exact Except.noConfusion herr
  · rw [hide_file_in_image]
    rw [if_neg (by omega), if_neg (by omega), if_pos (by omega)]
  · exact hide_ok enc kdf comp pixels fileData fn mt password salt hm hp
      (by omega)
  · have hfl := stegoFrame_length (pwTruthy password) salt fn mt
      (stegoPayload enc kdf comp fileData password salt)
    have hfl2 := stegoFrame_length (pwTruthy password) salt fn mt
      (stegoPayload enc2 kdf comp2 fileData password salt)
    rw [hide_file_in_image]
    rw [if_neg (by omega), if_neg (by omega), if_pos (by omega)]

/-- Claim C3 witness: at a concrete boundary — 32 RGB pixels give a 96-bit
budget; a 12-byte frame (2-byte stored payload, no password) fits exactly and
`hide` succeeds; a variant storing one more byte fails with
`InsufficientCapacity`. -/
theorem C3_capacity_check_witness :
    (([97] ++ [124] ++ [98]).length < 65536 ∧
      (stegoPayload (fun _ x => x) (fun _ s => s) (fun _ => [5, 6]) [1]
        none []).length < 4294967296) ∧
    ((hide_file_in_image (fun _ x => x) (fun _ s => s) (fun _ => [5, 6])
        (List.replicate 32 ((0, 0, 0) : Nat × Nat × Nat)) [1] [97] [98]
        none [] = .error .insufficientCapacity ↔
      (stegoFrame (pwTruthy none) [] [97] [98]
        (stegoPayload (fun _ x => x) (fun _ s => s) (fun _ => [5, 6]) [1]
          none [])).length * 8 >
        (List.replicate 32 ((0, 0, 0) : Nat × Nat × Nat)).length * 3) ∧
    ((stegoFrame (pwTruthy none) [] [97] [98]
        (stegoPayload (fun _ x => x) (fun _ s => s) (fun _ => [5, 6]) [1]
          none [])).length * 8 =
        (List.replicate 32 ((0, 0, 0) : Nat × Nat × Nat)).length * 3 →
      hide_file_in_image (fun _ x => x) (fun _ s => s) (fun _ => [5, 6])
        (List.replicate 32 ((0, 0, 0) : Nat × Nat × Nat)) [1] [97] [98]
        none [] =
        .ok (chunk3 (embedBits
          (flattenPixels (List.replicate 32 ((0, 0, 0) : Nat × Nat × Nat)))
          (bitsOfBytes (stegoFrame (pwTruthy none) [] [97] [98]
            (stegoPayload (fun _ x => x) (fun _ s => s) (fun _ => [5, 6]) [1]
              none [])))))) ∧
    (∀ (enc2 : List Nat → List Nat → List Nat) (comp2 : List Nat → List Nat),
      (stegoPayload enc2 (fun _ s => s) comp2 [1] none []).length =
        (stegoPayload (fun _ x => x) (fun _ s => s) (fun _ => [5, 6]) [1]
          none []).length + 1 →
      (stegoPayload enc2 (fun _ s => s) comp2 [1] none []).length <
        4294967296 →
      (stegoFrame (pwTruthy none) [] [97] [98]
        (stegoPayload (fun _ x => x) (fun _ s => s) (fun _ => [5, 6]) [1]
          none [])).length * 8 =
        (List.replicate 32 ((0, 0, 0) : Nat × Nat × Nat)).length * 3 →
      hide_file_in_image enc2 (fun _ s => s) comp2
        (List.replicate 32 ((0, 0, 0) : Nat × Nat × Nat)) [1] [97] [98]
        none [] = .error .insufficientCapacity)) := by
  exact ⟨⟨by decide, by decide⟩,
    C3_capacity_check (fun _ x => x) (fun _ s => s) (fun _ => [5, 6])
      (List.replicate 32 ((0, 0, 0) : Nat × Nat × Nat)) [1] [97] [98] []
      none (by decide) (by decide)⟩

/-! ## Claim C7 -/

/-- Claim C7 (confirmed): when the extracted frame's password flag is set and
the caller supplied no password, extraction fails with `PasswordRequired`.
The failure happens before any key derivation or decryption: the theorem
holds for every decryption function `dec`, KDF `kdf` and decompressor
`decomp` — none of them is ever consulted. -/
theorem C7_password_required_first
    (dec : List Nat → List Nat → Option (List Nat))
    (kdf : List Nat → List Nat → List Nat)
    (decomp : List Nat → Option (List Nat))
    (pixels : List (Nat × Nat × Nat))
    (hflag : (lsbBytes pixels).head? = some 1) :
    extract_file_from_image dec kdf decomp pixels none =
      .error .passwordRequired :=
  extract_flag1_falsy dec kdf decomp pixels none hflag rfl

/-- Claim C7 witness: three concrete pixels whose first eight channel LSBs
spell the flag byte `0x01`; extraction without a password fails with
`PasswordRequired` for arbitrary concrete stand-ins of the decryption
functions. -/
theorem C7_password_required_first_witness :
    ((lsbBytes [(0, 0, 0), (0, 0, 0), (0, 1, 0)]).head? = some 1) ∧
    extract_file_from_image (fun _ _ => none) (fun _ s => s) (fun _ => none)
      [(0, 0, 0), (0, 0, 0), (0, 1, 0)] none = .error .passwordRequired :=
  ⟨by decide, C7_password_required_first (fun _ _ => none) (fun _ s => s)
    (fun _ => none) [(0, 0, 0), (0, 0, 0), (0, 1, 0)] (by decide)⟩

/-! ## Claim C9 -/

/-- Claim C9 (confirmed): if the hidden file's basename contains the pipe
byte `0x7C`, `hide` succeeds (given capacity), but every subsequent
extraction of the resulting image fails — for every password supplied,
including the correct one, and for every decryption/decompression model —
because the metadata `"filename|mime"` splits on `'|'` into at least three
parts while the parser unpacks exactly two. -/
theorem C9_pipe_filename_breaks_extract
    (enc : List Nat → List Nat → List Nat)
    (kdf : List Nat → List Nat → List Nat) (comp : List Nat → List Nat)
    (pixels : List (Nat × Nat × Nat)) (fileData fn mt salt : List Nat)
    (password : Option String)
    (h124 : 124 ∈ fn)
    (hfnB : ∀ b ∈ fn, b < 256) (hmtB : ∀ b ∈ mt, b < 256)
    (hsaltB : ∀ b ∈ salt, b < 256) (hsaltL : salt.length = 16)
    (hm : (fn ++ [124] ++ mt).length < 65536)
    (hpayB : ∀ b ∈ stegoPayload enc kdf comp fileData password salt, b < 256)
    (hp : (stegoPayload enc kdf comp fileData password salt).length <
      4294967296)
    (hcap : (stegoFrame (pwTruthy password) salt fn mt
      (stegoPayload enc kdf comp fileData password salt)).length * 8 ≤
        pixels.length * 3) :
    hide_file_in_image enc kdf comp pixels fileData fn mt password salt =
      .ok (chunk3 (embedBits (flattenPixels pixels)
        (bitsOfBytes (stegoFrame (pwTruthy password) salt fn mt
          (stegoPayload enc kdf comp fileData password salt))))) ∧
    (∀ (dec : List Nat → List Nat → Option (List Nat))
      (kdf2 : List Nat → List Nat → List Nat)
      (decomp : List Nat → Option (List Nat)) (password2 : Option String),
      ∃ e, extract_file_from_image dec kdf2 decomp
        (chunk3 (embedBits (flattenPixels pixels)
          (bitsOfBytes (stegoFrame (pwTruthy password) salt fn mt
            (stegoPayload enc kdf comp fileData password salt)))))
        password2 = .error e) := by
  refine ⟨hide_ok enc kdf comp pixels fileData fn mt password salt hm hp hcap,
    fun dec kdf2 decomp password2 => ?_⟩
  have hframeB := stegoFrame_bytes_lt (pwTruthy password) salt fn mt
    (stegoPayload enc kdf comp fileData password salt) hsaltB hfnB hmtB hpayB
    hm hp
  have hlsb := lsbBytes_embed pixels
    (stegoFrame (pwTruthy password) salt fn mt
      (stegoPayload enc kdf comp fileData password salt)) hframeB (by omega)
  obtain ⟨a, b, c, r, hsplit⟩ := splitOnMarker_ge3 fn mt h124
  cases hpw : pwTruthy password with
  | false =>
    rw [hpw] at hlsb
    refine ⟨.extractFailed, ?_⟩
    rw [extract_frame_nopw_split dec kdf2 decomp _ password2 fn mt _ _ hlsb,
      hsplit]
  | true =>
    rw [hpw] at hlsb
    cases hpw2 : pwTruthy password2 with
    | false =>
      refine ⟨.passwordRequired, ?_⟩
      refine extract_flag1_falsy dec kdf2 decomp _ password2 ?_ hpw2
      rw [hlsb]
      exact stegoFrame_true_head salt fn mt _ _
    | true =>
      obtain ⟨pw2, hpwEq⟩ : ∃ pw2, password2 = some pw2 := by
        cases password2 with
        | none => simp [pwTruthy] at hpw2
        | some pw2 => exact ⟨pw2, rfl⟩
      subst hpwEq
      have hpwEmpty : pw2.isEmpty = false := by simpa [pwTruthy] using hpw2
      refine ⟨.extractFailed, ?_⟩
      rw [extract_frame_pw_split dec kdf2 decomp _ pw2 salt fn mt _ _ hlsb
        hsaltL hpwEmpty, hsplit]

set_option maxRecDepth 40000 in
/-- Claim C9 witness: filename `"|"` at a concrete carrier with the correct
password supplied on extraction — `hide` succeeds and extraction fails. -/
theorem C9_pipe_filename_breaks_extract_witness :
    (124 ∈ [124] ∧
      (stegoFrame (pwTruthy (some "pw")) (List.range 16) [124] [98]
        (stegoPayload (fun k x => k ++ x) (fun pwb s => pwb ++ s) (fun x => x)
          [1, 2] (some "pw") (List.range 16))).length * 8 ≤
        (List.replicate 130 ((6, 7, 8) : Nat × Nat × Nat)).length * 3) ∧
    (hide_file_in_image (fun k x => k ++ x) (fun pwb s => pwb ++ s)
        (fun x => x) (List.replicate 130 ((6, 7, 8) : Nat × Nat × Nat))
        [1, 2] [124] [98] (some "pw") (List.range 16) =
      .ok (chunk3 (embedBits
        (flattenPixels (List.replicate 130 ((6, 7, 8) : Nat × Nat × Nat)))
        (bitsOfBytes (stegoFrame (pwTruthy (some "pw")) (List.range 16)
          [124] [98]
          (stegoPayload (fun k x => k ++ x) (fun pwb s => pwb ++ s)
            (fun x => x) [1, 2] (some "pw") (List.range 16)))))) ∧
      ∀ (dec : List Nat → List Nat → Option (List Nat))
        (kdf2 : List Nat → List Nat → List Nat)
        (decomp : List Nat → Option (List Nat)) (password2 : Option String),
        ∃ e, extract_file_from_image dec kdf2 decomp
          (chunk3 (embedBits
            (flattenPixels (List.replicate 130 ((6, 7, 8) : Nat × Nat × Nat)))
            (bitsOfBytes (stegoFrame (pwTruthy (some "pw")) (List.range 16)
              [124] [98]
              (stegoPayload (fun k x => k ++ x) (fun pwb s => pwb ++ s)
                (fun x => x) [1, 2] (some "pw") (List.range 16))))))
          password2 = .error e) := by
  exact ⟨⟨by decide, by decide⟩,
    C9_pipe_filename_breaks_extract (fun k x => k ++ x) (fun pwb s => pwb ++ s)
      (fun x => x) (List.replicate 130 ((6, 7, 8) : Nat × Nat × Nat)) [1, 2]
      [124] [98] (List.range 16) (some "pw") (by decide) (by decide)
      (by decide) (by decide) (by decide) (by decide) (by decide) (by decide)
      (by decide)⟩

/-! ## Claim C4 -/

/-- Slice facts about a password-flagged frame as it sits in the recovered
byte stream: the flag byte, the salt at bytes 1–17, the length field and the
payload region. -/
theorem stegoFrame_pw_slices (salt fn mt payload G : List Nat)
    (hsalt : salt.length = 16) :
    pySlice (stegoFrame true salt fn mt payload ++ G) 0 1 = [1] ∧
    pySlice (stegoFrame true salt fn mt payload ++ G) 1 16 = salt ∧
    beVal (pySlice (stegoFrame true salt fn mt payload ++ G)
      (19 + (fn ++ [124] ++ mt).length) 4) = payload.length ∧
    pySlice (stegoFrame true salt fn mt payload ++ G)
      (19 + (fn ++ [124] ++ mt).length + 4) payload.length = payload := by
  have hT : stegoFrame true salt fn mt payload ++ G =
      1 :: (salt ++ (be2 (fn ++ [124] ++ mt).length ++ ((fn ++ [124] ++ mt) ++
        (be4 payload.length ++ (payload ++ G))))) := by
    simp [stegoFrame, List.append_assoc]
  set M := (fn ++ [124] ++ mt).length with hM
  rw [hT]
  set T : List Nat := salt ++ (be2 M ++ ((fn ++ [124] ++ mt) ++
    (be4 payload.length ++ (payload ++ G)))) with hTdef
  refine ⟨rfl, ?_, ?_, ?_⟩
  · rw [pySlice_cons_chop 1 T 1 16 (by omega)]
    rw [hTdef]
    exact pySlice_here _ _ _ hsalt.symm
  · have hD : pySlice (1 :: T) (19 + M) 4 = be4 payload.length := by
      rw [pySlice_cons_chop 1 T (19 + M) 4 (by omega), hTdef]
      have e1 : 19 + M - 1 = 18 + M := by omega
      rw [e1, pySlice_chop salt _ (18 + M) 4 (by omega), hsalt]
      have e2 : 18 + M - 16 = 2 + M := by omega
      rw [e2, pySlice_chop (be2 M) _ (2 + M) 4 (by simp [be2])]
      have e3 : 2 + M - (be2 M).length = M := by
        simp only [be2, List.length_cons, List.length_nil]
        omega
      rw [e3, pySlice_chop (fn ++ [124] ++ mt) _ M 4 (by omega)]
      have e4 : M - (fn ++ [124] ++ mt).length = 0 := by omega
      rw [e4]
      exact pySlice_here _ _ _ (by simp [be4])
    rw [hD, beVal_be4]
  · rw [pySlice_cons_chop 1 T (19 + M + 4) payload.length (by omega), hTdef]
    have e1 : 19 + M + 4 - 1 = 22 + M := by omega
    rw [e1, pySlice_chop salt _ (22 + M) payload.length (by omega), hsalt]
    have e2 : 22 + M - 16 = 6 + M := by omega
    rw [e2, pySlice_chop (be2 M) _ (6 + M) payload.length
      (by simp only [be2, List.length_cons, List.length_nil]; omega)]
    have e3 : 6 + M - (be2 M).length = 4 + M := by
      simp only [be2, List.length_cons, List.length_nil]
      omega
    rw [e3,
      pySlice_chop (fn ++ [124] ++ mt) _ (4 + M) payload.length (by omega)]
    have e4 : 4 + M - (fn ++ [124] ++ mt).length = 4 := by omega
    rw [e4, pySlice_chop (be4 payload.length) _ 4 payload.length
      (by simp [be4])]
    have e5 : (4 : Nat) - (be4 payload.length).length = 0 := by simp [be4]
    rw [e5]
    exact pySlice_here _ _ _ rfl

set_option maxRecDepth 40000 in
/-- Claim C4, counterexample: the claim says that with a password set the
frame's `payload_bytes` consists of an `EncryptionEnvelope` serialized as
`salt || iv || ciphertext` — the salt inside `payload_bytes`.  In the code the
salt is written into the frame header right after the password flag
(line 100), not into the payload, and the payload is whatever
`Fernet.encrypt` returned.  Concretely: with a nonzero 16-byte salt and an
encryption model returning 48 zero bytes, the payload region of the embedded
frame (bytes 26–74, after flag, salt, metadata and length fields) is the 48
zero bytes, and no decomposition `salt || iv || ct` of it exists, because its
first 16 bytes differ from the salt. -/
theorem C4_salt_in_payload_ctrex :
    pySlice (lsbBytes ((hide_file_in_image (fun _ _ => List.replicate 48 0)
        (fun pwb s => pwb ++ s) (fun x => x)
        (List.replicate 200 ((0, 0, 0) : Nat × Nat × Nat)) [1] [97] [98]
        (some "p") ((List.range 16).map (· + 1))).toOption.getD []))
      26 48 = List.replicate 48 0 ∧
    ¬ ∃ iv ct, iv.length = 16 ∧
      pySlice (lsbBytes ((hide_file_in_image (fun _ _ => List.replicate 48 0)
          (fun pwb s => pwb ++ s) (fun x => x)
          (List.replicate 200 ((0, 0, 0) : Nat × Nat × Nat)) [1] [97] [98]
          (some "p") ((List.range 16).map (· + 1))).toOption.getD []))
        26 48 = ((List.range 16).map (· + 1)) ++ iv ++ ct := by
  have hslice : pySlice (lsbBytes
      ((hide_file_in_image (fun _ _ => List.replicate 48 0)
        (fun pwb s => pwb ++ s) (fun x => x)
        (List.replicate 200 ((0, 0, 0) : Nat × Nat × Nat)) [1] [97] [98]
        (some "p") ((List.range 16).map (· + 1))).toOption.getD []))
      26 48 = List.replicate 48 0 := by decide
  refine ⟨hslice, ?_⟩
  rintro ⟨iv, ct, hiv, heq⟩
  rw [hslice] at heq
  have h16 : (List.replicate 48 0).take 16 =
      ((List.range 16).map (· + 1)).take 16 := by
    rw [heq, List.append_assoc,
      List.take_append_of_le_length
        (show (16 : Nat) ≤ ((List.range 16).map (· + 1)).length by decide)]
  exact absurd h16 (by decide)

/-- Claim C4 (corrected): with a password set, the 16-byte salt is stored in
the frame *header* immediately after the password flag (bytes 1–17 of the
embedded byte stream), not inside `payload_bytes`; `payload_bytes` is exactly
the encryption output (the Fernet token, which carries its own IV
internally), and the frame's 4-byte length field equals the length of those
literally embedded bytes — ciphertext length when encrypted (this theorem),
compressed length otherwise (`C1`'s no-password path).  Stated on the image
`hide` produces: its LSB byte stream starts with flag `1`, then the salt,
and the length field and payload region hold the encryption output and its
length. -/
theorem C4_frame_layout_amended
    (enc : List Nat → List Nat → List Nat)
    (kdf : List Nat → List Nat → List Nat) (comp : List Nat → List Nat)
    (pixels : List (Nat × Nat × Nat)) (fileData fn mt salt : List Nat)
    (pw : String) (hpw : pw.isEmpty = false)
    (hfnB : ∀ b ∈ fn, b < 256) (hmtB : ∀ b ∈ mt, b < 256)
    (hsaltB : ∀ b ∈ salt, b < 256) (hsaltL : salt.length = 16)
    (hm : (fn ++ [124] ++ mt).length < 65536)
    (hpayB : ∀ b ∈ enc (kdf (strBytes pw) salt) (comp fileData), b < 256)
    (hp : (enc (kdf (strBytes pw) salt) (comp fileData)).length < 4294967296)
    (hcap : (stegoFrame true salt fn mt
      (enc (kdf (strBytes pw) salt) (comp fileData))).length * 8 ≤
        pixels.length * 3) :
    ∃ img,
      hide_file_in_image enc kdf comp pixels fileData fn mt (some pw) salt =
        .ok img ∧
      pySlice (lsbBytes img) 0 1 = [1] ∧
      pySlice (lsbBytes img) 1 16 = salt ∧
      beVal (pySlice (lsbBytes img) (19 + (fn ++ [124] ++ mt).length) 4) =
        (enc (kdf (strBytes pw) salt) (comp fileData)).length ∧
      pySlice (lsbBytes img) (19 + (fn ++ [124] ++ mt).length + 4)
        (enc (kdf (strBytes pw) salt) (comp fileData)).length =
        enc (kdf (strBytes pw) salt) (comp fileData) := by
  have hpwT : pwTruthy (some pw) = true := by simp [pwTruthy, hpw]
  have hpay_eq : stegoPayload enc kdf comp fileData (some pw) salt =
      enc (kdf (strBytes pw) salt) (comp fileData) := by
    rw [stegoPayload, hpwT]
    simp
  have hok := hide_ok enc kdf comp pixels fileData fn mt (some pw) salt hm
    (by rw [hpay_eq]; exact hp) (by rw [hpwT, hpay_eq]; exact hcap)
  refine ⟨_, hok, ?_⟩
  · have hframeB := stegoFrame_bytes_lt (pwTruthy (some pw)) salt fn mt
      (stegoPayload enc kdf comp fileData (some pw) salt) hsaltB hfnB hmtB
      (by rw [hpay_eq]; exact hpayB) hm (by rw [hpay_eq]; exact hp)
    have hlsb := lsbBytes_embed pixels
      (stegoFrame (pwTruthy (some pw)) salt fn mt
        (stegoPayload enc kdf comp fileData (some pw) salt)) hframeB
      (by rw [hpwT, hpay_eq]; omega)
    rw [hpwT, hpay_eq] at hlsb
    rw [hpwT, hpay_eq, hlsb]
    obtain ⟨h0, h1, h2, h3⟩ := stegoFrame_pw_slices salt fn mt
      (enc (kdf (strBytes pw) salt) (comp fileData)) _ hsaltL
    exact ⟨h0, h1, h2, h3⟩

set_option maxRecDepth 40000 in
/-- Claim C4 witness: the amended layout at a concrete input (filename `"a"`,
MIME `"b"`, password `"pw"`, concrete salt, executable encryption
stand-in). -/
theorem C4_frame_layout_amended_witness :
    ((List.range 16).length = 16 ∧
      (stegoFrame true (List.range 16) [97] [98]
        ((fun (k x : List Nat) => k ++ x)
          ((fun (pwb s : List Nat) => pwb ++ s) (strBytes "pw")
            (List.range 16)) [1, 2, 3])).length * 8 ≤
      (List.replicate 130 ((6, 7, 8) : Nat × Nat × Nat)).length * 3) ∧
    (∃ img,
      hide_file_in_image (fun k x => k ++ x) (fun pwb s => pwb ++ s)
        (fun x => x) (List.replicate 130 ((6, 7, 8) : Nat × Nat × Nat))
        [1, 2, 3] [97] [98] (some "pw") (List.range 16) = .ok img ∧
      pySlice (lsbBytes img) 0 1 = [1] ∧
      pySlice (lsbBytes img) 1 16 = List.range 16 ∧
      beVal (pySlice (lsbBytes img) (19 + ([97] ++ [124] ++ [98]).length) 4) =
        ((fun (k x : List Nat) => k ++ x)
          ((fun (pwb s : List Nat) => pwb ++ s) (strBytes "pw")
            (List.range 16)) [1, 2, 3]).length ∧
      pySlice (lsbBytes img) (19 + ([97] ++ [124] ++ [98]).length + 4)
        ((fun (k x : List Nat) => k ++ x)
          ((fun (pwb s : List Nat) => pwb ++ s) (strBytes "pw")
            (List.range 16)) [1, 2, 3]).length =
        (fun (k x : List Nat) => k ++ x)
          ((fun (pwb s : List Nat) => pwb ++ s) (strBytes "pw")
            (List.range 16)) [1, 2, 3]) := by
  exact ⟨⟨by decide, by decide⟩,
    C4_frame_layout_amended (fun k x => k ++ x) (fun pwb s => pwb ++ s)
      (fun x => x) (List.replicate 130 ((6, 7, 8) : Nat × Nat × Nat))
      [1, 2, 3] [97] [98] (List.range 16) "pw" (by decide) (by decide)
      (by decide) (by decide) (by decide) (by decide) (by decide) (by decide)
      (by decide)⟩

/-! ## Claim C5 -/

set_option maxRecDepth 10000 in
/-- Claim C5, counterexample: deserialization does *not* reject length fields
that extend past the recovered buffer.  A 28-pixel image whose LSBs spell the
11-byte buffer `[0, 0,3, 97,124,98, 0,0,1,0, 7]` declares a payload length of
256 with only one byte remaining; the slice silently truncates to `[7]` and
extraction succeeds with payload `[7]` instead of failing with
`MalformedFrame` (the decompressor is instantiated with a function accepting
that stream, as zlib does whenever the truncated bytes happen to form a
complete stream). -/
theorem C5_truncation_ctrex :
    extract_file_from_image (fun _ x => some x) (fun _ s => s)
      (fun x => some x)
      (chunk3 (embedBits (List.replicate 84 0)
        (bitsOfBytes [0, 0, 3, 97, 124, 98, 0, 0, 1, 0] ++ [0, 1, 1, 1])))
      none = .ok ([7], [97], [98]) ∧
    beVal (pySlice (lsbBytes (chunk3 (embedBits (List.replicate 84 0)
      (bitsOfBytes [0, 0, 3, 97, 124, 98, 0, 0, 1, 0] ++ [0, 1, 1, 1]))))
      6 4) = 256 ∧
    (lsbBytes (chunk3 (embedBits (List.replicate 84 0)
      (bitsOfBytes [0, 0, 3, 97, 124, 98, 0, 0, 1, 0] ++ [0, 1, 1, 1])))).length
      = 11 := by
  refine ⟨by decide, by decide, by decide⟩

/-- Claim C5 (corrected): deserialization reads the fields in the fixed order
but performs no bounds check; a declared `payload_length` that extends past
the end of the recovered buffer is silently truncated by the Python slice,
and extraction proceeds with the truncated bytes: it succeeds whenever the
downstream decompressor accepts them and otherwise fails with the generic
extraction error, never with a `MalformedFrame` bounds rejection.  Stated for
every buffer of the form `flag 0 || metadata_len || metadata || declared ||
avail` with `declared` exceeding the remaining `avail`. -/
theorem C5_truncation_amended
    (dec : List Nat → List Nat → Option (List Nat))
    (kdf : List Nat → List Nat → List Nat)
    (decomp : List Nat → Option (List Nat))
    (pixels : List (Nat × Nat × Nat)) (password : Option String)
    (fn mt avail : List Nat) (declared : Nat)
    (hlsb : lsbBytes pixels = [0] ++ be2 (fn ++ [124] ++ mt).length ++
      (fn ++ [124] ++ mt) ++ be4 declared ++ avail)
    (hfn : ¬ 124 ∈ fn) (hmt : ¬ 124 ∈ mt)
    (hdecl : avail.length < declared) :
    extract_file_from_image dec kdf decomp pixels password =
      match decomp avail with
      | some r => .ok (r, fn, mt)
      | none => .error .extractFailed := by
  have hT : [0] ++ be2 (fn ++ [124] ++ mt).length ++ (fn ++ [124] ++ mt) ++
      be4 declared ++ avail =
      0 :: (be2 (fn ++ [124] ++ mt).length ++ ((fn ++ [124] ++ mt) ++
        (be4 declared ++ avail))) := by
    simp [List.append_assoc]
  rw [hT] at hlsb
  set M := (fn ++ [124] ++ mt).length with hM
  set T : List Nat := be2 M ++ ((fn ++ [124] ++ mt) ++
    (be4 declared ++ avail)) with hTdef
  have hB : pySlice (0 :: T) 1 2 = be2 M := by
    rw [pySlice_cons_chop 0 T 1 2 (by omega), hTdef]
    exact pySlice_here _ _ _ rfl
  have hC : pySlice (0 :: T) 3 M = fn ++ [124] ++ mt := by
    rw [pySlice_cons_chop 0 T 3 M (by omega), hTdef]
    rw [pySlice_chop (be2 M) _ 2 M (by simp [be2])]
    have h2 : (2 : Nat) - (be2 M).length = 0 := by simp [be2]
    rw [h2]
    exact pySlice_here _ _ _ hM
  have hD : pySlice (0 :: T) (3 + M) 4 = be4 declared := by
    rw [pySlice_cons_chop 0 T (3 + M) 4 (by omega), hTdef]
    have e1 : 3 + M - 1 = 2 + M := by omega
    rw [e1, pySlice_chop (be2 M) _ (2 + M) 4 (by simp [be2])]
    have e3 : 2 + M - (be2 M).length = M := by
      simp only [be2, List.length_cons, List.length_nil]
      omega
    rw [e3, pySlice_chop (fn ++ [124] ++ mt) _ M 4 (by omega)]
    have e4 : M - (fn ++ [124] ++ mt).length = 0 := by omega
    rw [e4]
    exact pySlice_here _ _ _ (by simp [be4])
  have hE : pySlice (0 :: T) (3 + M + 4) declared = avail := by
    rw [pySlice_cons_chop 0 T (3 + M + 4) declared (by omega), hTdef]
    have e1 : 3 + M + 4 - 1 = 6 + M := by omega
    rw [e1, pySlice_chop (be2 M) _ (6 + M) declared
      (by simp only [be2, List.length_cons, List.length_nil]; omega)]
    have e3 : 6 + M - (be2 M).length = 4 + M := by
      simp only [be2, List.length_cons, List.length_nil]
      omega
    rw [e3, pySlice_chop (fn ++ [124] ++ mt) _ (4 + M) declared (by omega)]
    have e4 : 4 + M - (fn ++ [124] ++ mt).length = 4 := by omega
    rw [e4, pySlice_chop (be4 declared) _ 4 declared (by simp [be4])]
    have e5 : (4 : Nat) - (be4 declared).length = 0 := by simp [be4]
    rw [e5]
    unfold pySlice
    rw [List.drop_zero]
    exact List.take_of_length_le (by omega)
  have hsplit : splitOnMarker [124] (fn ++ [124] ++ mt) = [fn, mt] :=
    splitOnMarker_one_occ 124 [] fn mt hfn hmt
  rw [extract_file_from_image, hlsb]
  simp only [Nat.zero_ne_one, beq_iff_eq, if_false, false_and, ite_false]
  rw [hB, beVal_be2, hC, hsplit]
  have h3 : 1 + 2 = 3 := rfl
  rw [h3, hD, beVal_be4, hE]

set_option maxRecDepth 10000 in
/-- Claim C5 witness: the amended truncation behaviour at the concrete
11-byte buffer of the counterexample, with a decompressor accepting the
truncated stream. -/
theorem C5_truncation_amended_witness :
    (lsbBytes (chunk3 (embedBits (List.replicate 84 0)
        (bitsOfBytes [0, 0, 3, 97, 124, 98, 0, 0, 1, 0] ++ [0, 1, 1, 1]))) =
      [0] ++ be2 ([97] ++ [124] ++ [98]).length ++ ([97] ++ [124] ++ [98]) ++
        be4 256 ++ [7] ∧ ([7] : List Nat).length < 256) ∧
    extract_file_from_image (fun _ x => some x) (fun _ s => s)
      (fun x => some x)
      (chunk3 (embedBits (List.replicate 84 0)
        (bitsOfBytes [0, 0, 3, 97, 124, 98, 0, 0, 1, 0] ++ [0, 1, 1, 1])))
      none =
      match (fun (x : List Nat) => some x) [7] with
      | some r => .ok (r, [97], [98])
      | none => .error .extractFailed := by
  exact ⟨⟨by decide, by decide⟩,
    C5_truncation_amended (fun _ x => some x) (fun _ s => s)
      (fun x => some x)
      (chunk3 (embedBits (List.replicate 84 0)
        (bitsOfBytes [0, 0, 3, 97, 124, 98, 0, 0, 1, 0] ++ [0, 1, 1, 1])))
      none [97] [98] [7] 256 (by decide) (by decide) (by decide) (by decide)⟩

/-! ## Claim C8 -/

theorem findSub_some_of_marker (m : Nat) (ms a b : List Nat) (ha : ¬ m ∈ a) :
    findSub (m :: ms) (a ++ (m :: ms) ++ b) = some a.length := by
  induction a with
  | nil =>
    have hshape : ([] : List Nat) ++ (m :: ms) ++ b = m :: (ms ++ b) := by
      simp
    rw [hshape, findSub]
    have hpre : (m :: ms).isPrefixOf (m :: (ms ++ b)) = true :=
      isPrefixOf_self_append (m :: ms) b
    rw [hpre]
    rfl
  | cons x xs ih =>
    have hx : m ≠ x := fun h => ha (h ▸ List.mem_cons_self x xs)
    have hshape : (x :: xs) ++ (m :: ms) ++ b =
        x :: (xs ++ (m :: ms) ++ b) := by simp
    rw [hshape, findSub]
    have hpre : (m :: ms).isPrefixOf (x :: (xs ++ (m :: ms) ++ b)) =
        false := by
      cases hp : (m :: ms).isPrefixOf (x :: (xs ++ (m :: ms) ++ b)) with
      | false => rfl
      | true => exact absurd (isPrefixOf_head_mem hp) hx
    rw [hpre]
    simp only [Bool.false_eq_true, if_false]
    rw [ih (fun hmem => ha (List.mem_cons_of_mem x hmem))]
    rfl

theorem replicate_getLast (v : Nat) :
    ∀ n, (List.replicate (n + 1) v).getLast? = some v := by
  intro n
  induction n with
  | zero => rfl
  | succ m ih =>
    rw [List.replicate_succ, List.getLast?_cons, ih]
    rfl

theorem getLast_append_replicate (a : List Nat) (k v : Nat) (hk : 0 < k) :
    (a ++ List.replicate k v).getLast? = some v := by
  rw [List.getLast?_append]
  cases k with
  | zero => omega
  | succ n =>
    rw [replicate_getLast v n]
    rfl

/-- Claim C8 (confirmed): QR `encode("https://example.com", "secret42",
password = "pw")` followed by `decode` of the combined text with password
`"pw"` returns `("https://example.com", "secret42")`, and decoding the same
combined text with no password fails with `PasswordRequired`, because the
base64-decoded payload `salt || iv || ciphertext` is at least 32 bytes long.
The external AES, PBKDF2 and base64 are abstract parameters constrained only
by their round-trip laws at the values used (and the facts that base64 output
is non-empty and contains no `'#'`, true of real base64). -/
theorem C8_qr_scenario (aesE aesD : List Nat → List Nat → List Nat → List Nat)
    (kdf : List Nat → List Nat → List Nat)
    (b64e : List Nat → List Nat) (b64d : List Nat → Option (List Nat))
    (utf8ok : List Nat → Bool) (salt iv : List Nat)
    (hsalt : salt.length = 16) (hiv : iv.length = 16)
    (hb64 : b64d (b64e (salt ++ iv ++ aesE (kdf (strBytes "pw") salt) iv
        (strBytes "secret42" ++ List.replicate 8 8))) =
      some (salt ++ iv ++ aesE (kdf (strBytes "pw") salt) iv
        (strBytes "secret42" ++ List.replicate 8 8)))
    (hne : b64e (salt ++ iv ++ aesE (kdf (strBytes "pw") salt) iv
      (strBytes "secret42" ++ List.replicate 8 8)) ≠ [])
    (hnohash : ¬ 35 ∈ b64e (salt ++ iv ++ aesE (kdf (strBytes "pw") salt) iv
      (strBytes "secret42" ++ List.replicate 8 8)))
    (haes : aesD (kdf (strBytes "pw") salt) iv
        (aesE (kdf (strBytes "pw") salt) iv
          (strBytes "secret42" ++ List.replicate 8 8)) =
      strBytes "secret42" ++ List.replicate 8 8)
    (hutf8 : utf8ok (strBytes "secret42") = true) :
    extract_from_qr_stego aesD kdf b64d utf8ok
      (generate_qr_with_stego aesE kdf b64e (strBytes "https://example.com")
        (strBytes "secret42") (some "pw") salt iv) (some "pw") =
      .ok (strBytes "https://example.com", strBytes "secret42") ∧
    extract_from_qr_stego aesD kdf b64d utf8ok
      (generate_qr_with_stego aesE kdf b64e (strBytes "https://example.com")
        (strBytes "secret42") (some "pw") salt iv) none =
      .error .passwordRequired := by
  have hgen : generate_qr_with_stego aesE kdf b64e
      (strBytes "https://example.com") (strBytes "secret42") (some "pw")
      salt iv =
      strBytes "https://example.com" ++ qrMarker ++
        b64e (salt ++ iv ++ aesE (kdf (strBytes "pw") salt) iv
          (strBytes "secret42" ++ List.replicate 8 8)) := by
    rw [generate_qr_with_stego]
    have hpwT : pwTruthy (some "pw") = true := by decide
    have hpadlen : (16 : Nat) - (strBytes "secret42").length % 16 = 8 := by
      decide
    simp only [hpwT, if_true, Option.getD_some, hpadlen]
  have hqm : qrMarker = 35 :: strBytes "IVDATA:" := by decide
  have hfind : findSub qrMarker (strBytes "https://example.com" ++ qrMarker ++
      b64e (salt ++ iv ++ aesE (kdf (strBytes "pw") salt) iv
        (strBytes "secret42" ++ List.replicate 8 8))) =
      some (strBytes "https://example.com").length := by
    rw [hqm]
    exact findSub_some_of_marker 35 (strBytes "IVDATA:")
      (strBytes "https://example.com") _ (by decide)
  have hsplitQ : splitOnMarker qrMarker
      (strBytes "https://example.com" ++ qrMarker ++
        b64e (salt ++ iv ++ aesE (kdf (strBytes "pw") salt) iv
          (strBytes "secret42" ++ List.replicate 8 8))) =
      [strBytes "https://example.com",
        b64e (salt ++ iv ++ aesE (kdf (strBytes "pw") salt) iv
          (strBytes "secret42" ++ List.replicate 8 8))] := by
    rw [hqm]
    exact splitOnMarker_one_occ 35 (strBytes "IVDATA:")
      (strBytes "https://example.com") _ (by decide) hnohash
  have hEempty : (b64e (salt ++ iv ++ aesE (kdf (strBytes "pw") salt) iv
      (strBytes "secret42" ++ List.replicate 8 8))).isEmpty = false := by
    cases hE : b64e (salt ++ iv ++ aesE (kdf (strBytes "pw") salt) iv
        (strBytes "secret42" ++ List.replicate 8 8)) with
    | nil => exact absurd hE hne
    | cons x xs => rfl
  have hPlen : ¬ (salt ++ iv ++ aesE (kdf (strBytes "pw") salt) iv
      (strBytes "secret42" ++ List.replicate 8 8)).length < 32 := by
    simp only [List.length_append, hsalt, hiv]
    omega
  have htake : (salt ++ iv ++ aesE (kdf (strBytes "pw") salt) iv
      (strBytes "secret42" ++ List.replicate 8 8)).take 16 = salt := by
    rw [List.append_assoc, ← hsalt, List.take_left]
  have hivs : pySlice (salt ++ iv ++ aesE (kdf (strBytes "pw") salt) iv
      (strBytes "secret42" ++ List.replicate 8 8)) 16 16 = iv := by
    rw [List.append_assoc, pySlice_chop salt _ 16 16 (by omega), hsalt]
    have h0 : (16 : Nat) - 16 = 0 := rfl
    rw [h0]
    exact pySlice_here _ _ _ hiv.symm
  have hdrop : (salt ++ iv ++ aesE (kdf (strBytes "pw") salt) iv
      (strBytes "secret42" ++ List.replicate 8 8)).drop 32 =
      aesE (kdf (strBytes "pw") salt) iv
        (strBytes "secret42" ++ List.replicate 8 8) := by
    have h32 : (salt ++ iv).length = 32 := by
      simp [List.length_append, hsalt, hiv]
    rw [← h32, List.drop_left]
  have hlast : (strBytes "secret42" ++ List.replicate 8 8).getLast? =
      some 8 := getLast_append_replicate _ 8 8 (by omega)
  have hstrip : pySliceNegTake (strBytes "secret42" ++ List.replicate 8 8) 8 =
      strBytes "secret42" := by decide
  constructor
  · rw [hgen, extract_from_qr_stego]
    simp only [hfind, Option.isSome_some, if_true, hsplitQ, List.headD_cons,
      hEempty, Bool.false_eq_true, if_false, hb64]
    have hpwT : pwTruthy (some "pw") = true := by decide
    simp only [hpwT, if_true, hPlen, if_false, Option.getD_some, htake, hivs,
      hdrop, haes, hlast, hstrip, hutf8]
  · rw [hgen, extract_from_qr_stego]
    simp only [hfind, Option.isSome_some, if_true, hsplitQ, List.headD_cons,
      hEempty, Bool.false_eq_true, if_false, hb64]
    have hpwF : pwTruthy none = false := rfl
    have hge : (salt ++ iv ++ aesE (kdf (strBytes "pw") salt) iv
        (strBytes "secret42" ++ List.replicate 8 8)).length ≥ 32 := by
      omega
    simp only [hpwF, Bool.false_eq_true, if_false, if_pos hge]

/-- Claim C8 witness: the scenario with executable stand-ins — a shift
cipher for AES, the password bytes as derived key, identity base64 — a
concrete 16-byte salt and IV of zeros, so both conclusions evaluate. -/
theorem C8_qr_scenario_witness :
    ((List.replicate 16 0 : List Nat).length = 16 ∧
      (fun (_ : List Nat) => (fun (x : List Nat) => some x))
        = (fun _ => some)) ∧
    (extract_from_qr_stego
        (fun k _iv x => x.map (fun b => (b + (256 - k.headD 0 % 256)) % 256))
        (fun pwb _s => pwb) some (fun _ => true)
        (generate_qr_with_stego
          (fun k _iv x => x.map (fun b => (b + k.headD 0) % 256))
          (fun pwb _s => pwb) (fun x => x) (strBytes "https://example.com")
          (strBytes "secret42") (some "pw") (List.replicate 16 0)
          (List.replicate 16 0)) (some "pw") =
        .ok (strBytes "https://example.com", strBytes "secret42") ∧
      extract_from_qr_stego
        (fun k _iv x => x.map (fun b => (b + (256 - k.headD 0 % 256)) % 256))
        (fun pwb _s => pwb) some (fun _ => true)
        (generate_qr_with_stego
          (fun k _iv x => x.map (fun b => (b + k.headD 0) % 256))
          (fun pwb _s => pwb) (fun x => x) (strBytes "https://example.com")
          (strBytes "secret42") (some "pw") (List.replicate 16 0)
          (List.replicate 16 0)) none = .error .passwordRequired) := by
  refine ⟨⟨by decide, rfl⟩, ?_⟩
  exact C8_qr_scenario
    (fun k _iv x => x.map (fun b => (b + k.headD 0) % 256))
    (fun k _iv x => x.map (fun b => (b + (256 - k.headD 0 % 256)) % 256))
    (fun pwb _s => pwb) (fun x => x) some (fun _ => true)
    (List.replicate 16 0) (List.replicate 16 0) (by decide) (by decide)
    (by decide) (by decide) (by decide) (by decide) (by decide)

/-! ## Claim C6 -/

set_option maxRecDepth 10000 in
/-- Claim C6, counterexample: the claimed property — decrypting with any
wrong password fails, padding is validated, and invalid padding never yields
success — is false on the QR path, whose sources the claim cites.  With a
conforming cipher model (a shift cipher keyed by the KDF output, an exact
inverse pair), a 15-byte secret is encrypted under password `"a"`; decoding
with the different password `"b"` *succeeds*, returning the empty secret: the
garbage plaintext ends in byte `0`, the unvalidated strip `[:-0]` empties the
buffer, and UTF-8 decoding of the empty string succeeds.  The decrypted
buffer fails PKCS#7 validation (`pkcs7Valid = false`), yet no error is
raised. -/
theorem C6_qr_wrong_password_ctrex :
    extract_from_qr_stego
      (fun k _iv x => x.map (fun b => (b + (256 - k.headD 0 % 256)) % 256))
      (fun pwb _s => pwb) some (fun _ => true)
      (generate_qr_with_stego
        (fun k _iv x => x.map (fun b => (b + k.headD 0) % 256))
        (fun pwb _s => pwb) (fun x => x) [112] (List.replicate 15 65)
        (some "a") (List.replicate 16 0) (List.replicate 16 0)) (some "b") =
      .ok ([112], []) ∧
    pkcs7Valid ((fun (k _iv x : List Nat) =>
      x.map (fun b => (b + (256 - k.headD 0 % 256)) % 256)) (strBytes "b")
      (List.replicate 16 0)
      ((fun (k _iv x : List Nat) => x.map (fun b => (b + k.headD 0) % 256))
        (strBytes "a") (List.replicate 16 0)
        (List.replicate 15 65 ++ List.replicate 1 1))) = false ∧
    ("a" : String) ≠ "b" := by
  refine ⟨by decide, by decide, by decide⟩

/-- Claim C6 (corrected): on the LSB image path the property holds — for
every envelope produced by hiding with password `w1`, extraction with a
different password `w2` fails with the incorrect-password error, assuming
only the authenticated-encryption fact that Fernet decryption under the
`w2`-derived key rejects the `w1`-token (`hdecFail`, Fernet's HMAC check).
On the QR path the code strips padding without validating it, so a wrong
password can produce a success result (`C6_qr_wrong_password_ctrex`): the
"padding is validated and invalid padding never yields success" clause fails
there. -/
theorem C6_password_isolation_amended
    (enc : List Nat → List Nat → List Nat)
    (dec : List Nat → List Nat → Option (List Nat))
    (kdf : List Nat → List Nat → List Nat)
    (comp : List Nat → List Nat) (decomp : List Nat → Option (List Nat))
    (pixels : List (Nat × Nat × Nat)) (fileData fn mt salt : List Nat)
    (pw1 pw2 : String)
    (hpw1 : pw1.isEmpty = false) (hpw2 : pw2.isEmpty = false)
    (hfn124 : ¬ 124 ∈ fn) (hmt124 : ¬ 124 ∈ mt)
    (hfnB : ∀ b ∈ fn, b < 256) (hmtB : ∀ b ∈ mt, b < 256)
    (hsaltB : ∀ b ∈ salt, b < 256) (hsaltL : salt.length = 16)
    (hm : (fn ++ [124] ++ mt).length < 65536)
    (hpayB : ∀ b ∈ enc (kdf (strBytes pw1) salt) (comp fileData), b < 256)
    (hp : (enc (kdf (strBytes pw1) salt) (comp fileData)).length < 4294967296)
    (hcap : (stegoFrame true salt fn mt
      (enc (kdf (strBytes pw1) salt) (comp fileData))).length * 8 ≤
        pixels.length * 3)
    (hdecFail : dec (kdf (strBytes pw2) salt)
      (enc (kdf (strBytes pw1) salt) (comp fileData)) = none) :
    (hide_file_in_image enc kdf comp pixels fileData fn mt (some pw1)
        salt).bind
      (fun img => extract_file_from_image dec kdf decomp img (some pw2)) =
      .error .incorrectPassword := by
  have hpwT : pwTruthy (some pw1) = true := by simp [pwTruthy, hpw1]
  have hpay_eq : stegoPayload enc kdf comp fileData (some pw1) salt =
      enc (kdf (strBytes pw1) salt) (comp fileData) := by
    rw [stegoPayload, hpwT]
    simp
  rw [hide_ok enc kdf comp pixels fileData fn mt (some pw1) salt hm
    (by rw [hpay_eq]; exact hp) (by rw [hpwT, hpay_eq]; exact hcap)]
  show extract_file_from_image dec kdf decomp _ (some pw2) = _
  rw [hpwT]
  have hframeB := stegoFrame_bytes_lt (pwTruthy (some pw1)) salt fn mt
    (stegoPayload enc kdf comp fileData (some pw1) salt) hsaltB hfnB hmtB
    (by rw [hpay_eq]; exact hpayB) hm (by rw [hpay_eq]; exact hp)
  have hlsb := lsbBytes_embed pixels
    (stegoFrame (pwTruthy (some pw1)) salt fn mt
      (stegoPayload enc kdf comp fileData (some pw1) salt)) hframeB
    (by rw [hpwT, hpay_eq]; omega)
  rw [hpwT] at hlsb
  rw [extract_frame_pw dec kdf decomp _ pw2 salt fn mt _ _ hlsb hsaltL hfn124
    hmt124 hpw2, hpay_eq, hdecFail]

set_option maxRecDepth 40000 in
/-- Claim C6 witness: the amended image-path isolation at a concrete input —
hiding with password `"a"`, extracting with `"b"`, where the executable
encryption stand-in (key-prefix tagging) rejects the mismatched key exactly
as Fernet's authentication does. -/
theorem C6_password_isolation_amended_witness :
    (("a" : String).isEmpty = false ∧
      (fun (k y : List Nat) =>
        if y.take k.length = k then some (y.drop k.length) else none)
        ((fun (pwb s : List Nat) => pwb ++ s) (strBytes "b") (List.range 16))
        ((fun (k x : List Nat) => k ++ x)
          ((fun (pwb s : List Nat) => pwb ++ s) (strBytes "a")
            (List.range 16)) [1, 2, 3]) = none) ∧
    (hide_file_in_image (fun k x => k ++ x) (fun pwb s => pwb ++ s)
        (fun x => x) (List.replicate 130 ((6, 7, 8) : Nat × Nat × Nat))
        [1, 2, 3] [97] [98] (some "a") (List.range 16)).bind
      (fun img => extract_file_from_image
        (fun k y => if y.take k.length = k then some (y.drop k.length)
          else none)
        (fun pwb s => pwb ++ s) (fun x => some x) img (some "b")) =
      .error .incorrectPassword := by
  refine ⟨⟨by decide, by decide⟩, ?_⟩
  exact C6_password_isolation_amended (fun k x => k ++ x)
    (fun k y => if y.take k.length = k then some (y.drop k.length) else none)
    (fun pwb s => pwb ++ s) (fun x => x) (fun x => some x)
    (List.replicate 130 ((6, 7, 8) : Nat × Nat × Nat)) [1, 2, 3] [97] [98]
    (List.range 16) "a" "b" (by decide) (by decide) (by decide) (by decide)
    (by decide) (by decide) (by decide) (by decide) (by decide) (by decide)
    (by decide) (by decide) (by decide)

/-! ## Polyglot support lemmas: reads, writes and signature search -/

theorem drop_chop (a b : List Nat) (q : Nat) (h : a.length ≤ q) :
    (a ++ b).drop q = b.drop (q - a.length) := by
  rw [List.drop_append_eq_append_drop, List.drop_eq_nil_of_le h,
    List.nil_append]

theorem getD_at (pre : List Nat) (x : Nat) (post : List Nat) (i : Nat)
    (h : i = pre.length) : (pre ++ x :: post).getD i 0 = x := by
  subst h
  induction pre with
  | nil => rfl
  | cons p ps ih => simpa using ih

theorem rd2_at (pre : List Nat) (a b : Nat) (post : List Nat) (i : Nat)
    (h : i = pre.length) : rd2 (pre ++ a :: b :: post) i = a + 256 * b := by
  subst h
  rw [rd2, getD_at pre a (b :: post) _ rfl]
  have hb : (pre ++ a :: b :: post).getD (pre.length + 1) 0 = b := by
    have hshape : pre ++ a :: b :: post = (pre ++ [a]) ++ b :: post := by
      simp
    rw [hshape]
    exact getD_at (pre ++ [a]) b post _ (by simp)
  rw [hb]

theorem rd4_at (pre : List Nat) (a b c d : Nat) (post : List Nat) (i : Nat)
    (h : i = pre.length) :
    rd4 (pre ++ a :: b :: c :: d :: post) i =
      a + 256 * b + 65536 * c + 16777216 * d := by
  subst h
  rw [rd4, getD_at pre a (b :: c :: d :: post) _ rfl]
  have hb : (pre ++ a :: b :: c :: d :: post).getD (pre.length + 1) 0 = b := by
    have hshape : pre ++ a :: b :: c :: d :: post =
        (pre ++ [a]) ++ b :: c :: d :: post := by simp
    rw [hshape]
    exact getD_at (pre ++ [a]) b (c :: d :: post) _ (by simp)
  have hc : (pre ++ a :: b :: c :: d :: post).getD (pre.length + 2) 0 = c := by
    have hshape : pre ++ a :: b :: c :: d :: post =
        (pre ++ [a, b]) ++ c :: d :: post := by simp
    rw [hshape]
    exact getD_at (pre ++ [a, b]) c (d :: post) _ (by simp)
  have hd : (pre ++ a :: b :: c :: d :: post).getD (pre.length + 3) 0 = d := by
    have hshape : pre ++ a :: b :: c :: d :: post =
        (pre ++ [a, b, c]) ++ d :: post := by simp
    rw [hshape]
    exact getD_at (pre ++ [a, b, c]) d post _ (by simp)
  rw [hb, hc, hd]

theorem rd4_le4_at (pre : List Nat) (n : Nat) (post : List Nat) (i : Nat)
    (h : i = pre.length) : rd4 (pre ++ (le4 n ++ post)) i = n := by
  have hshape : pre ++ (le4 n ++ post) =
      pre ++ n % 256 :: n / 256 % 256 :: n / 65536 % 256 ::
        n / 16777216 :: post := rfl
  rw [hshape, rd4_at pre _ _ _ _ post i h]
  omega

theorem rd2_le2_at (pre : List Nat) (n : Nat) (post : List Nat) (i : Nat)
    (h : i = pre.length) : rd2 (pre ++ (le2 n ++ post)) i = n := by
  have hshape : pre ++ (le2 n ++ post) = pre ++ n % 256 :: n / 256 :: post :=
    rfl
  rw [hshape, rd2_at pre _ _ post i h]
  omega

theorem pySlice_at (pre mid post : List Nat) (i n : Nat)
    (hi : i = pre.length) (hn : n = mid.length) :
    pySlice (pre ++ (mid ++ post)) i n = mid := by
  subst hi
  rw [pySlice_chop pre (mid ++ post) _ _ (le_refl _), Nat.sub_self]
  exact pySlice_here mid post n hn

theorem splice4_at (pre old4 post v : List Nat) (pos : Nat)
    (h : pos = pre.length) (h4 : old4.length = 4) :
    splice4 (pre ++ (old4 ++ post)) pos v = pre ++ (v ++ post) := by
  subst h
  rw [splice4]
  have ht : (pre ++ (old4 ++ post)).take pre.length = pre := by
    rw [List.take_append_of_le_length (le_refl _), List.take_length]
  have hd : (pre ++ (old4 ++ post)).drop (pre.length + 4) = post := by
    rw [drop_chop pre (old4 ++ post) _ (by omega)]
    have h4n : pre.length + 4 - pre.length = 4 := by omega
    rw [h4n, drop_chop old4 post 4 (by omega), h4, Nat.sub_self]
    rfl
  rw [ht, hd, List.append_assoc]

theorem rfindSub_none_of_no_occ (m : Nat) (ms : List Nat) :
    ∀ data : List Nat,
      (∀ q, (m :: ms).isPrefixOf (data.drop q) = false) →
      rfindSub (m :: ms) data = none := by
  intro data
  induction data with
  | nil =>
    intro _
    rfl
  | cons x xs ih =>
    intro h
    rw [rfindSub]
    rw [ih (fun q => h (q + 1))]
    have h0 := h 0
    rw [List.drop_zero] at h0
    simp [h0]

theorem rfindSub_eq_of (m : Nat) (ms : List Nat) :
    ∀ (data : List Nat) (P : Nat),
      (m :: ms).isPrefixOf (data.drop P) = true →
      (∀ q, P < q → (m :: ms).isPrefixOf (data.drop q) = false) →
      rfindSub (m :: ms) data = some P := by
  intro data
  induction data with
  | nil =>
    intro P hocc _
    rw [List.drop_nil] at hocc
    simp [List.isPrefixOf] at hocc
  | cons x xs ih =>
    intro P hocc hafter
    cases P with
    | zero =>
      rw [rfindSub]
      rw [rfindSub_none_of_no_occ m ms xs (fun q => hafter (q + 1) (by omega))]
      rw [List.drop_zero] at hocc
      simp [hocc]
    | succ P0 =>
      rw [rfindSub]
      rw [ih P0 hocc (fun q hq => hafter (q + 1) (by omega))]

theorem findSub_le_of_occ (m : Nat) (ms : List Nat) :
    ∀ (data : List Nat) (S : Nat),
      (m :: ms).isPrefixOf (data.drop S) = true →
      ∃ k, findSub (m :: ms) data = some k ∧ k ≤ S := by
  intro data
  induction data with
  | nil =>
    intro S hocc
    rw [List.drop_nil] at hocc
    simp [List.isPrefixOf] at hocc
  | cons x xs ih =>
    intro S hocc
    rw [findSub]
    cases hp : (m :: ms).isPrefixOf (x :: xs) with
    | true => exact ⟨0, by simp, by omega⟩
    | false =>
      simp only [Bool.false_eq_true, if_false]
      cases S with
      | zero =>
        rw [List.drop_zero] at hocc
        rw [hocc] at hp
        exact absurd hp (by simp)
      | succ S0 =>
        obtain ⟨k, hk, hle⟩ := ih S0 hocc
        exact ⟨k + 1, by rw [hk]; rfl, by omega⟩

theorem le4_length (n : Nat) : (le4 n).length = 4 := rfl

theorem le2_length (n : Nat) : (le2 n).length = 2 := rfl

theorem zipLocalEntry_length (name comp : List Nat) (usize : Nat)
    (crc : List Nat) (hcrc : crc.length = 4) :
    (zipLocalEntry name comp usize crc).length =
      30 + name.length + comp.length := by
  simp [zipLocalEntry, le4, le2, List.length_append, hcrc]
  omega

theorem zipCdEntry_length (name : List Nat) (compLen usize : Nat)
    (crc : List Nat) (localOff : Nat) (hcrc : crc.length = 4) :
    (zipCdEntry name compLen usize crc localOff).length = 46 + name.length := by
  simp [zipCdEntry, le4, le2, List.length_append, hcrc]
  omega

theorem zipEocd_length (sizeCd offCd : Nat) :
    (zipEocd sizeCd offCd).length = 22 := rfl

theorem zipEocd_no_inner_sig (C O : Nat) (hC : C < 65536)
    (hO : O < 16777216) :
    ∀ j, 1 ≤ j →
      [80, 75, 5, 6].isPrefixOf ((zipEocd C O).drop j) = false := by
  intro j hj
  have hc2 : C / 65536 % 256 = 0 := by omega
  have hc3 : C / 16777216 = 0 := by omega
  have ho3 : O / 16777216 = 0 := by omega
  have hshape : zipEocd C O =
      [80, 75, 5, 6, 0, 0, 0, 0, 1, 0, 1, 0, C % 256, C / 256 % 256, 0, 0,
        O % 256, O / 256 % 256, O / 65536 % 256, 0, 0, 0] := by
    simp [zipEocd, le4, hc2, hc3, ho3]
  rw [hshape]
  by_cases hj22 : j < 22
  · interval_cases j <;> simp [List.isPrefixOf]
  · rw [List.drop_eq_nil_of_le (by simp; omega)]
    simp [List.isPrefixOf]

/-- `create_polyglot` without a password (either branch of the pyzipper
conditional) produces exactly `carrier || local entry || patched central
directory || patched EOCD`: the central-directory offset and the entry's
local-header offset are each increased by the carrier length, and nothing
else changes. -/
theorem create_polyglot_ok (hasPyz : Bool) (aesZip : List Nat)
    (carrier name data comp crc : List Nat)
    (hcrc : crc.length = 4)
    (hS : carrier.length < 16777216)
    (hL : 30 + name.length + comp.length < 16777216)
    (hC : 46 + name.length < 65536) :
    create_polyglot hasPyz aesZip carrier name data comp crc none =
      .ok (carrier ++ (zipLocalEntry name comp data.length crc ++
        (zipCdEntry name comp.length data.length crc carrier.length ++
          zipEocd (46 + name.length)
            (carrier.length + (30 + name.length + comp.length))))) := by
  have hLHlen := zipLocalEntry_length name comp data.length crc hcrc
  have hCD0len := zipCdEntry_length name comp.length data.length crc 0 hcrc
  have hCDSlen := zipCdEntry_length name comp.length data.length crc
    carrier.length hcrc
  rw [create_polyglot]
  have hbranch : (pwTruthy none && hasPyz) = false := rfl
  rw [hbranch]
  simp only [Bool.false_eq_true, if_false]
  rw [fix_zip_offsets]
  -- locate the EOCD record of the unpatched archive
  have hocc : [80, 75, 5, 6].isPrefixOf
      ((carrier ++ mkZipPlain name data comp crc).drop
        (carrier.length + (30 + name.length + comp.length) +
          (46 + name.length))) = true := by
    have hsh : carrier ++ mkZipPlain name data comp crc =
        (carrier ++ (zipLocalEntry name comp data.length crc ++
          zipCdEntry name comp.length data.length crc 0)) ++
        zipEocd (46 + name.length) (30 + name.length + comp.length) := by
      simp [mkZipPlain, List.append_assoc]
    rw [hsh, drop_chop _ _ _ (by
      simp only [List.length_append, hLHlen, hCD0len]
      omega)]
    have hz : carrier.length + (30 + name.length + comp.length) +
        (46 + name.length) -
        (carrier ++ (zipLocalEntry name comp data.length crc ++
          zipCdEntry name comp.length data.length crc 0)).length = 0 := by
      simp only [List.length_append, hLHlen, hCD0len]
      omega
    rw [hz, List.drop_zero]
    have hzsh : zipEocd (46 + name.length) (30 + name.length + comp.length) =
        [80, 75, 5, 6] ++ ([0, 0] ++ [0, 0] ++ [1, 0] ++ [1, 0] ++
          le4 (46 + name.length) ++ le4 (30 + name.length + comp.length) ++
          [0, 0]) := by
      simp [zipEocd, List.append_assoc]
    rw [hzsh]
    exact isPrefixOf_self_append _ _
  have hafter : ∀ q,
      carrier.length + (30 + name.length + comp.length) +
        (46 + name.length) < q →
      [80, 75, 5, 6].isPrefixOf
        ((carrier ++ mkZipPlain name data comp crc).drop q) = false := by
    intro q hq
    have hsh : carrier ++ mkZipPlain name data comp crc =
        (carrier ++ (zipLocalEntry name comp data.length crc ++
          zipCdEntry name comp.length data.length crc 0)) ++
        zipEocd (46 + name.length) (30 + name.length + comp.length) := by
      simp [mkZipPlain, List.append_assoc]
    rw [hsh, drop_chop _ _ _ (by
      simp only [List.length_append, hLHlen, hCD0len]
      omega)]
    refine zipEocd_no_inner_sig (46 + name.length)
      (30 + name.length + comp.length) hC (by omega) _ ?_
    simp only [List.length_append, hLHlen, hCD0len]
    omega
  rw [rfindSub_eq_of 80 [75, 5, 6] _ _ hocc hafter]
  dsimp only
  -- read and patch the central-directory offset stored in the EOCD
  have hsh16 : carrier ++ mkZipPlain name data comp crc =
      (carrier ++ (zipLocalEntry name comp data.length crc ++
        (zipCdEntry name comp.length data.length crc 0 ++
          ([80, 75, 5, 6, 0, 0, 0, 0, 1, 0, 1, 0] ++
            le4 (46 + name.length))))) ++
      (le4 (30 + name.length + comp.length) ++ [0, 0]) := by
    simp [mkZipPlain, zipEocd, le4, List.append_assoc]
  have hpre16len : (carrier ++ (zipLocalEntry name comp data.length crc ++
      (zipCdEntry name comp.length data.length crc 0 ++
        ([80, 75, 5, 6, 0, 0, 0, 0, 1, 0, 1, 0] ++
          le4 (46 + name.length))))).length =
      carrier.length + (30 + name.length + comp.length) +
        (46 + name.length) + 16 := by
    simp only [List.length_append, hLHlen, hCD0len, le4_length,
      List.length_cons, List.length_nil]
    omega
  have hrd16 : rd4 (carrier ++ mkZipPlain name data comp crc)
      (carrier.length + (30 + name.length + comp.length) +
        (46 + name.length) + 16) = 30 + name.length + comp.length := by
    rw [hsh16]
    exact rd4_le4_at _ _ _ _ hpre16len.symm
  rw [hrd16]
  rw [if_neg (by omega)]
  -- the spliced buffer is the archive with a patched EOCD offset
  have hsplice : splice4 (carrier ++ mkZipPlain name data comp crc)
      (carrier.length + (30 + name.length + comp.length) +
        (46 + name.length) + 16)
      (le4 (30 + name.length + comp.length + carrier.length)) =
      carrier ++ (zipLocalEntry name comp data.length crc ++
        (zipCdEntry name comp.length data.length crc 0 ++
          zipEocd (46 + name.length)
            (30 + name.length + comp.length + carrier.length))) := by
    rw [hsh16]
    rw [splice4_at _ _ _ _ _ hpre16len.symm (le4_length _)]
    simp [zipEocd, le4, List.append_assoc]
  rw [hsplice]
  have hcomm : 30 + name.length + comp.length + carrier.length =
      carrier.length + (30 + name.length + comp.length) := by omega
  rw [hcomm]
  -- first central-directory entry: patch its local-header offset
  rw [fixCdLoop]
  have hshsig : carrier ++ (zipLocalEntry name comp data.length crc ++
      (zipCdEntry name comp.length data.length crc 0 ++
        zipEocd (46 + name.length)
          (carrier.length + (30 + name.length + comp.length)))) =
      (carrier ++ zipLocalEntry name comp data.length crc) ++
        ([80, 75, 1, 2] ++
          ([20, 0, 20, 0, 0, 0, 8, 0, 0, 0, 0, 0] ++ crc ++
            le4 comp.length ++ le4 data.length ++ le2 name.length ++
            [0, 0, 0, 0, 0, 0, 0, 0, 0, 0, 0, 0] ++ le4 0 ++ name ++
            zipEocd (46 + name.length)
              (carrier.length + (30 + name.length + comp.length)))) := by
    simp [zipCdEntry, List.append_assoc]
  have hsig1 : pySlice (carrier ++ (zipLocalEntry name comp data.length crc ++
      (zipCdEntry name comp.length data.length crc 0 ++
        zipEocd (46 + name.length)
          (carrier.length + (30 + name.length + comp.length)))))
      (carrier.length + (30 + name.length + comp.length)) 4 =
      [80, 75, 1, 2] := by
    rw [hshsig]
    refine pySlice_at _ _ _ _ _ ?_ rfl
    simp only [List.length_append, hLHlen]
  rw [hsig1]
  rw [if_pos rfl]
  have hsh42 : carrier ++ (zipLocalEntry name comp data.length crc ++
      (zipCdEntry name comp.length data.length crc 0 ++
        zipEocd (46 + name.length)
          (carrier.length + (30 + name.length + comp.length)))) =
      (carrier ++ zipLocalEntry name comp data.length crc ++
        ([80, 75, 1, 2, 20, 0, 20, 0, 0, 0, 8, 0, 0, 0, 0, 0] ++ crc ++
          le4 comp.length ++ le4 data.length ++ le2 name.length ++
          [0, 0, 0, 0, 0, 0, 0, 0, 0, 0, 0, 0])) ++
        (le4 0 ++ (name ++
          zipEocd (46 + name.length)
            (carrier.length + (30 + name.length + comp.length)))) := by
    simp [zipCdEntry, List.append_assoc]
  have hpre42len : (carrier ++ zipLocalEntry name comp data.length crc ++
      ([80, 75, 1, 2, 20, 0, 20, 0, 0, 0, 8, 0, 0, 0, 0, 0] ++ crc ++
        le4 comp.length ++ le4 data.length ++ le2 name.length ++
        [0, 0, 0, 0, 0, 0, 0, 0, 0, 0, 0, 0])).length =
      carrier.length + (30 + name.length + comp.length) + 42 := by
    simp only [List.length_append, hLHlen, le4_length, le2_length, hcrc,
      List.length_cons, List.length_nil]
  have hrd42 : rd4 (carrier ++ (zipLocalEntry name comp data.length crc ++
      (zipCdEntry name comp.length data.length crc 0 ++
        zipEocd (46 + name.length)
          (carrier.length + (30 + name.length + comp.length)))))
      (carrier.length + (30 + name.length + comp.length) + 42) = 0 := by
    rw [hsh42]
    exact rd4_le4_at _ _ _ _ hpre42len.symm
  rw [hrd42]
  rw [if_neg (by omega)]
  have hzeroS : 0 + carrier.length = carrier.length := by omega
  rw [hzeroS]
  have hsplice42 : splice4 (carrier ++
      (zipLocalEntry name comp data.length crc ++
        (zipCdEntry name comp.length data.length crc 0 ++
          zipEocd (46 + name.length)
            (carrier.length + (30 + name.length + comp.length)))))
      (carrier.length + (30 + name.length + comp.length) + 42)
      (le4 carrier.length) =
      carrier ++ (zipLocalEntry name comp data.length crc ++
        (zipCdEntry name comp.length data.length crc carrier.length ++
          zipEocd (46 + name.length)
            (carrier.length + (30 + name.length + comp.length)))) := by
    rw [hsh42]
    rw [splice4_at _ _ _ _ _ hpre42len.symm (le4_length _)]
    simp [zipCdEntry, List.append_assoc]
  rw [hsplice42]
  dsimp only
  -- the three length fields driving the walk to the next entry
  have hsh28 : carrier ++ (zipLocalEntry name comp data.length crc ++
      (zipCdEntry name comp.length data.length crc carrier.length ++
        zipEocd (46 + name.length)
          (carrier.length + (30 + name.length + comp.length)))) =
      (carrier ++ zipLocalEntry name comp data.length crc ++
        ([80, 75, 1, 2, 20, 0, 20, 0, 0, 0, 8, 0, 0, 0, 0, 0] ++ crc ++
          le4 comp.length ++ le4 data.length)) ++
        (le2 name.length ++ ([0, 0, 0, 0, 0, 0, 0, 0, 0, 0, 0, 0] ++
          le4 carrier.length ++ name ++
          zipEocd (46 + name.length)
            (carrier.length + (30 + name.length + comp.length)))) := by
    simp [zipCdEntry, List.append_assoc]
  have hpre28len : (carrier ++ zipLocalEntry name comp data.length crc ++
      ([80, 75, 1, 2, 20, 0, 20, 0, 0, 0, 8, 0, 0, 0, 0, 0] ++ crc ++
        le4 comp.length ++ le4 data.length)).length =
      carrier.length + (30 + name.length + comp.length) + 28 := by
    simp only [List.length_append, hLHlen, le4_length, hcrc,
      List.length_cons, List.length_nil]
  have hrd28 : rd2 (carrier ++ (zipLocalEntry name comp data.length crc ++
      (zipCdEntry name comp.length data.length crc carrier.length ++
        zipEocd (46 + name.length)
          (carrier.length + (30 + name.length + comp.length)))))
      (carrier.length + (30 + name.length + comp.length) + 28) =
      name.length := by
    rw [hsh28]
    exact rd2_le2_at _ _ _ _ hpre28len.symm
  have hsh30 : carrier ++ (zipLocalEntry name comp data.length crc ++
      (zipCdEntry name comp.length data.length crc carrier.length ++
        zipEocd (46 + name.length)
          (carrier.length + (30 + name.length + comp.length)))) =
      (carrier ++ zipLocalEntry name comp data.length crc ++
        ([80, 75, 1, 2, 20, 0, 20, 0, 0, 0, 8, 0, 0, 0, 0, 0] ++ crc ++
          le4 comp.length ++ le4 data.length ++ le2 name.length)) ++
        (0 :: 0 :: ([0, 0, 0, 0, 0, 0, 0, 0, 0, 0] ++
          le4 carrier.length ++ name ++
          zipEocd (46 + name.length)
            (carrier.length + (30 + name.length + comp.length)))) := by
    simp [zipCdEntry, List.append_assoc]
  have hpre30len : (carrier ++ zipLocalEntry name comp data.length crc ++
      ([80, 75, 1, 2, 20, 0, 20, 0, 0, 0, 8, 0, 0, 0, 0, 0] ++ crc ++
        le4 comp.length ++ le4 data.length ++ le2 name.length)).length =
      carrier.length + (30 + name.length + comp.length) + 30 := by
    simp only [List.length_append, hLHlen, le4_length, le2_length, hcrc,
      List.length_cons, List.length_nil]
  have hrd30 : rd2 (carrier ++ (zipLocalEntry name comp data.length crc ++
      (zipCdEntry name comp.length data.length crc carrier.length ++
        zipEocd (46 + name.length)
          (carrier.length + (30 + name.length + comp.length)))))
      (carrier.length + (30 + name.length + comp.length) + 30) = 0 := by
    rw [hsh30, rd2_at _ 0 0 _ _ hpre30len.symm]
  have hsh32 : carrier ++ (zipLocalEntry name comp data.length crc ++
      (zipCdEntry name comp.length data.length crc carrier.length ++
        zipEocd (46 + name.length)
          (carrier.length + (30 + name.length + comp.length)))) =
      (carrier ++ zipLocalEntry name comp data.length crc ++
        ([80, 75, 1, 2, 20, 0, 20, 0, 0, 0, 8, 0, 0, 0, 0, 0] ++ crc ++
          le4 comp.length ++ le4 data.length ++ le2 name.length ++ [0, 0])) ++
        (0 :: 0 :: ([0, 0, 0, 0, 0, 0, 0, 0] ++
          le4 carrier.length ++ name ++
          zipEocd (46 + name.length)
            (carrier.length + (30 + name.length + comp.length)))) := by
    simp [zipCdEntry, List.append_assoc]
  have hpre32len : (carrier ++ zipLocalEntry name comp data.length crc ++
      ([80, 75, 1, 2, 20, 0, 20, 0, 0, 0, 8, 0, 0, 0, 0, 0] ++ crc ++
        le4 comp.length ++ le4 data.length ++ le2 name.length ++
        [0, 0])).length =
      carrier.length + (30 + name.length + comp.length) + 32 := by
    simp only [List.length_append, hLHlen, le4_length, le2_length, hcrc,
      List.length_cons, List.length_nil]
  have hrd32 : rd2 (carrier ++ (zipLocalEntry name comp data.length crc ++
      (zipCdEntry name comp.length data.length crc carrier.length ++
        zipEocd (46 + name.length)
          (carrier.length + (30 + name.length + comp.length)))))
      (carrier.length + (30 + name.length + comp.length) + 32) = 0 := by
    rw [hsh32, rd2_at _ 0 0 _ _ hpre32len.symm]
  rw [hrd28, hrd30, hrd32]
  -- the walk advances exactly to the EOCD record and stops
  have hnext : carrier.length + (30 + name.length + comp.length) + 46 +
      name.length + 0 + 0 =
      carrier.length + (30 + name.length + comp.length) +
        (46 + name.length) := by omega
  rw [hnext]
  have hdlen : (carrier ++ mkZipPlain name data comp crc).length =
      (carrier.length + (30 + name.length + comp.length) +
        (46 + name.length) + 21) + 1 := by
    simp only [List.length_append, mkZipPlain, hLHlen, hCD0len,
      zipEocd_length]
    omega
  rw [hdlen, fixCdLoop]
  have hshe : carrier ++ (zipLocalEntry name comp data.length crc ++
      (zipCdEntry name comp.length data.length crc carrier.length ++
        zipEocd (46 + name.length)
          (carrier.length + (30 + name.length + comp.length)))) =
      (carrier ++ zipLocalEntry name comp data.length crc ++
        zipCdEntry name comp.length data.length crc carrier.length) ++
        ([80, 75, 5, 6] ++ ([0, 0, 0, 0, 1, 0, 1, 0] ++
          le4 (46 + name.length) ++
          le4 (carrier.length + (30 + name.length + comp.length)) ++
          [0, 0])) := by
    simp [zipEocd, List.append_assoc]
  have hsig2 : pySlice (carrier ++ (zipLocalEntry name comp data.length crc ++
      (zipCdEntry name comp.length data.length crc carrier.length ++
        zipEocd (46 + name.length)
          (carrier.length + (30 + name.length + comp.length)))))
      (carrier.length + (30 + name.length + comp.length) +
        (46 + name.length)) 4 = [80, 75, 5, 6] := by
    rw [hshe]
    refine pySlice_at _ _ _ _ _ ?_ rfl
    simp only [List.length_append, hLHlen, hCDSlen]
  rw [hsig2]
  rw [if_neg (by decide)]

/-! Reads on a dropped buffer reduce to reads on the full buffer, and the
`Int`-position readers reduce to their `Nat` counterparts at a cast
position: used to evaluate `zipfileReadFirst`, which reads the archive
`data[zip_start:]` at positions compensated by `concat`. -/

theorem getD_drop (l : List Nat) (k i : Nat) :
    (l.drop k).getD i 0 = l.getD (k + i) 0 := by
  simp [List.getD_eq_getElem?_getD, List.getElem?_drop]

theorem rd2_drop (l : List Nat) (k i : Nat) :
    rd2 (l.drop k) i = rd2 l (k + i) := by
  simp only [rd2, getD_drop, Nat.add_assoc]

theorem rd4_drop (l : List Nat) (k i : Nat) :
    rd4 (l.drop k) i = rd4 l (k + i) := by
  simp only [rd4, getD_drop, Nat.add_assoc]

theorem pySlice_drop (l : List Nat) (k s n : Nat) :
    pySlice (l.drop k) s n = pySlice l (k + s) n := by
  simp only [pySlice, List.drop_drop]

theorem intSlice_natCast (xs : List Nat) (n len : Nat) :
    intSlice xs (n : Int) len = pySlice xs n len := by
  simp [intSlice]

theorem rdI2_natCast (xs : List Nat) (n : Nat) :
    rdI2 xs (n : Int) = rd2 xs n := by
  simp [rdI2]

theorem rdI4_natCast (xs : List Nat) (n : Nat) :
    rdI4 xs (n : Int) = rd4 xs n := by
  simp [rdI4]


/-- Evaluation of the `zipfile` model on a buffer `p` whose bytes at the
archive positions are those of a one-entry archive laid out at offset `S`
(local header), `S + L` (central directory, `C` bytes) and `S + L + C`
(EOCD), opened at any prefix cut `k ≤ S`: the `concat` compensation makes
the read independent of `k` and returns the inflated entry. -/
theorem zipfileReadFirst_ok (decomp : List Nat → Option (List Nat))
    (zcRead : List Nat → String → Except PolyError (List Nat × List Nat))
    (p name comp data : List Nat) (k S L C : Nat)
    (hk : k ≤ S)
    (hlen : p.length = S + L + C + 22)
    (hC0 : C ≠ 0)
    (hsigE : pySlice p (S + L + C) 4 = [80, 75, 5, 6])
    (hrdE20 : rd2 p (S + L + C + 20) = 0)
    (hrdE12 : rd4 p (S + L + C + 12) = C)
    (hrdE16 : rd4 p (S + L + C + 16) = S + L)
    (hsigCD : pySlice p (S + L) 4 = [80, 75, 1, 2])
    (hrdCD8 : rd2 p (S + L + 8) = 0)
    (hrdCD20 : rd4 p (S + L + 20) = comp.length)
    (hrdCD28 : rd2 p (S + L + 28) = name.length)
    (hrdCD42 : rd4 p (S + L + 42) = S)
    (hnameCD : pySlice p (S + L + 46) name.length = name)
    (hsigLH : pySlice p S 4 = [80, 75, 3, 4])
    (hrdL26 : rd2 p (S + 26) = name.length)
    (hrdL28 : rd2 p (S + 28) = 0)
    (hnameLH : pySlice p (S + 30) name.length = name)
    (hcomp : pySlice p (S + 30 + name.length) comp.length = comp)
    (hdecomp : decomp comp = some data) :
    zipfileReadFirst decomp zcRead (p.drop k) none = .ok (data, name) := by
  rw [zipfileReadFirst, List.length_drop, hlen]
  rw [if_neg (show ¬(S + L + C + 22 - k < 22) by omega)]
  dsimp only
  simp only [pySlice_drop, rd2_drop, rd4_drop]
  have e0 : k + (S + L + C + 22 - k - 22) = S + L + C := by omega
  have e20 : k + (S + L + C + 22 - k - 22 + 20) = S + L + C + 20 := by omega
  have e12 : k + (S + L + C + 22 - k - 22 + 12) = S + L + C + 12 := by omega
  have e16 : k + (S + L + C + 22 - k - 22 + 16) = S + L + C + 16 := by omega
  rw [e0, e20, e12, e16]
  rw [hsigE, hrdE20, hrdE12, hrdE16]
  rw [if_neg (by decide)]
  rw [if_neg (by decide)]
  rw [if_neg hC0]
  have hstart : (↑(S + L) : Int) +
      (↑(S + L + C + 22 - k - 22) - ↑C - ↑(S + L)) =
      ((S + L - k : Nat) : Int) := by omega
  rw [hstart]
  have hfold8 : ((S + L - k : Nat) : Int) + 8 =
      ((S + L - k + 8 : Nat) : Int) := by omega
  have hfold20 : ((S + L - k : Nat) : Int) + 20 =
      ((S + L - k + 20 : Nat) : Int) := by omega
  have hfold28 : ((S + L - k : Nat) : Int) + 28 =
      ((S + L - k + 28 : Nat) : Int) := by omega
  have hfold42 : ((S + L - k : Nat) : Int) + 42 =
      ((S + L - k + 42 : Nat) : Int) := by omega
  have hfold46 : ((S + L - k : Nat) : Int) + 46 =
      ((S + L - k + 46 : Nat) : Int) := by omega
  rw [hfold8, hfold20, hfold28, hfold42, hfold46]
  simp only [intSlice_natCast, rdI2_natCast, rdI4_natCast]
  simp only [pySlice_drop, rd2_drop, rd4_drop]
  have eB : k + (S + L - k) = S + L := by omega
  have eB8 : k + (S + L - k + 8) = S + L + 8 := by omega
  have eB20 : k + (S + L - k + 20) = S + L + 20 := by omega
  have eB28 : k + (S + L - k + 28) = S + L + 28 := by omega
  have eB42 : k + (S + L - k + 42) = S + L + 42 := by omega
  have eB46 : k + (S + L - k + 46) = S + L + 46 := by omega
  rw [eB, eB8, eB20, eB28, eB42, eB46]
  rw [hsigCD, hrdCD8, hrdCD20, hrdCD28, hrdCD42, hnameCD]
  rw [if_neg (by decide)]
  rw [if_neg (by decide)]
  have hhdr : (↑S : Int) +
      (↑(S + L + C + 22 - k - 22) - ↑C - ↑(S + L)) =
      ((S - k : Nat) : Int) := by omega
  rw [hhdr]
  have hf26 : ((S - k : Nat) : Int) + 26 = ((S - k + 26 : Nat) : Int) := by
    omega
  have hf28 : ((S - k : Nat) : Int) + 28 = ((S - k + 28 : Nat) : Int) := by
    omega
  have hf30 : ((S - k : Nat) : Int) + 30 = ((S - k + 30 : Nat) : Int) := by
    omega
  rw [hf26, hf28, hf30]
  simp only [intSlice_natCast, rdI2_natCast]
  simp only [pySlice_drop, rd2_drop]
  have eS : k + (S - k) = S := by omega
  have eS26 : k + (S - k + 26) = S + 26 := by omega
  have eS28 : k + (S - k + 28) = S + 28 := by omega
  have eS30 : k + (S - k + 30) = S + 30 := by omega
  rw [eS, eS26, eS28, eS30]
  rw [hsigLH, hrdL26, hrdL28, hnameLH]
  rw [if_neg (by decide)]
  rw [if_neg (show ¬(name ≠ name) from fun h => h rfl)]
  have hds : ((S - k + 30 : Nat) : Int) + ↑name.length + ((0 : Nat) : Int) =
      ((S - k + 30 + name.length : Nat) : Int) := by omega
  rw [hds]
  rw [intSlice_natCast, pySlice_drop]
  have eD : k + (S - k + 30 + name.length) = S + 30 + name.length := by
    omega
  rw [eD, hcomp, hdecomp]

/-- `extract_from_polyglot` applied to the exact output of a password-free
`create_polyglot` recovers the hidden file bytes and its name. -/
theorem extract_polyglot_ok (hasPyz : Bool)
    (decomp : List Nat → Option (List Nat))
    (pyzRead zcRead : List Nat → String → Except PolyError (List Nat × List Nat))
    (carrier name data comp crc : List Nat)
    (hcrc : crc.length = 4)
    (hdecomp : decomp comp = some data) :
    extract_from_polyglot decomp pyzRead zcRead hasPyz
      (carrier ++ (zipLocalEntry name comp data.length crc ++
        (zipCdEntry name comp.length data.length crc carrier.length ++
          zipEocd (46 + name.length)
            (carrier.length + (30 + name.length + comp.length))))) none =
      .ok (data, name) := by
  have hLHlen := zipLocalEntry_length name comp data.length crc hcrc
  have hCDSlen := zipCdEntry_length name comp.length data.length crc
    carrier.length hcrc
  have hplen : (carrier ++ (zipLocalEntry name comp data.length crc ++
      (zipCdEntry name comp.length data.length crc carrier.length ++
        zipEocd (46 + name.length)
          (carrier.length + (30 + name.length + comp.length))))).length =
      carrier.length + (30 + name.length + comp.length) +
        (46 + name.length) + 22 := by
    simp only [List.length_append, hLHlen, hCDSlen, zipEocd_length]
    omega
  have hocc : [80, 75, 3, 4].isPrefixOf
      ((carrier ++ (zipLocalEntry name comp data.length crc ++
        (zipCdEntry name comp.length data.length crc carrier.length ++
          zipEocd (46 + name.length)
            (carrier.length + (30 + name.length + comp.length))))).drop
        carrier.length) = true := by
    rw [drop_chop _ _ _ (le_refl _), Nat.sub_self, List.drop_zero]
    have hsh : zipLocalEntry name comp data.length crc ++
        (zipCdEntry name comp.length data.length crc carrier.length ++
          zipEocd (46 + name.length)
            (carrier.length + (30 + name.length + comp.length))) =
        [80, 75, 3, 4] ++
          ([20, 0, 0, 0, 8, 0, 0, 0, 0, 0] ++ crc ++ le4 comp.length ++
            le4 data.length ++ le2 name.length ++ [0, 0] ++ name ++ comp ++
            (zipCdEntry name comp.length data.length crc carrier.length ++
              zipEocd (46 + name.length)
                (carrier.length + (30 + name.length + comp.length)))) := by
      simp [zipLocalEntry, List.append_assoc]
    rw [hsh]
    exact isPrefixOf_self_append _ _
  obtain ⟨k, hfind, hk⟩ :=
    findSub_le_of_occ 80 [75, 3, 4] _ carrier.length hocc
  rw [extract_from_polyglot, hfind]
  dsimp only
  have hbranch : (hasPyz && pwTruthy none) = false := by
    simp [pwTruthy]
  rw [hbranch]
  simp only [Bool.false_eq_true, if_false]
  refine zipfileReadFirst_ok decomp zcRead _ name comp data k carrier.length
    (30 + name.length + comp.length) (46 + name.length) hk hplen
    (by omega) ?_ ?_ ?_ ?_ ?_ ?_ ?_ ?_ ?_ ?_ ?_ ?_ ?_ ?_ ?_ hdecomp
  -- EOCD signature
  · have hshe : carrier ++ (zipLocalEntry name comp data.length crc ++
        (zipCdEntry name comp.length data.length crc carrier.length ++
          zipEocd (46 + name.length)
            (carrier.length + (30 + name.length + comp.length)))) =
        (carrier ++ zipLocalEntry name comp data.length crc ++
          zipCdEntry name comp.length data.length crc carrier.length) ++
          ([80, 75, 5, 6] ++ ([0, 0, 0, 0, 1, 0, 1, 0] ++
            le4 (46 + name.length) ++
            le4 (carrier.length + (30 + name.length + comp.length)) ++
            [0, 0])) := by
      simp [zipEocd, List.append_assoc]
    rw [hshe]
    refine pySlice_at _ _ _ _ _ ?_ rfl
    simp only [List.length_append, hLHlen, hCDSlen]
  -- EOCD comment length
  · have hshE20 : carrier ++ (zipLocalEntry name comp data.length crc ++
        (zipCdEntry name comp.length data.length crc carrier.length ++
          zipEocd (46 + name.length)
            (carrier.length + (30 + name.length + comp.length)))) =
        (carrier ++ zipLocalEntry name comp data.length crc ++
          zipCdEntry name comp.length data.length crc carrier.length ++
          ([80, 75, 5, 6, 0, 0, 0, 0, 1, 0, 1, 0] ++
            le4 (46 + name.length) ++
            le4 (carrier.length + (30 + name.length + comp.length)))) ++
          (0 :: 0 :: []) := by
      simp [zipEocd, List.append_assoc]
    have hpreE20 : (carrier ++ zipLocalEntry name comp data.length crc ++
        zipCdEntry name comp.length data.length crc carrier.length ++
        ([80, 75, 5, 6, 0, 0, 0, 0, 1, 0, 1, 0] ++ le4 (46 + name.length) ++
          le4 (carrier.length + (30 + name.length + comp.length)))).length =
        carrier.length + (30 + name.length + comp.length) +
          (46 + name.length) + 20 := by
      simp only [List.length_append, hLHlen, hCDSlen, le4_length,
        List.length_cons, List.length_nil]
    rw [hshE20, rd2_at _ 0 0 _ _ hpreE20.symm]
  -- EOCD central-directory size
  · have hshE12 : carrier ++ (zipLocalEntry name comp data.length crc ++
        (zipCdEntry name comp.length data.length crc carrier.length ++
          zipEocd (46 + name.length)
            (carrier.length + (30 + name.length + comp.length)))) =
        (carrier ++ zipLocalEntry name comp data.length crc ++
          zipCdEntry name comp.length data.length crc carrier.length ++
          [80, 75, 5, 6, 0, 0, 0, 0, 1, 0, 1, 0]) ++
          (le4 (46 + name.length) ++
            (le4 (carrier.length + (30 + name.length + comp.length)) ++
              [0, 0])) := by
      simp [zipEocd, List.append_assoc]
    have hpreE12 : (carrier ++ zipLocalEntry name comp data.length crc ++
        zipCdEntry name comp.length data.length crc carrier.length ++
        [80, 75, 5, 6, 0, 0, 0, 0, 1, 0, 1, 0]).length =
        carrier.length + (30 + name.length + comp.length) +
          (46 + name.length) + 12 := by
      simp only [List.length_append, hLHlen, hCDSlen, List.length_cons,
        List.length_nil]
    rw [hshE12]
    exact rd4_le4_at _ _ _ _ hpreE12.symm
  -- EOCD central-directory offset
  · have hshE16 : carrier ++ (zipLocalEntry name comp data.length crc ++
        (zipCdEntry name comp.length data.length crc carrier.length ++
          zipEocd (46 + name.length)
            (carrier.length + (30 + name.length + comp.length)))) =
        (carrier ++ zipLocalEntry name comp data.length crc ++
          zipCdEntry name comp.length data.length crc carrier.length ++
          ([80, 75, 5, 6, 0, 0, 0, 0, 1, 0, 1, 0] ++
            le4 (46 + name.length))) ++
          (le4 (carrier.length + (30 + name.length + comp.length)) ++
            [0, 0]) := by
      simp [zipEocd, List.append_assoc]
    have hpreE16 : (carrier ++ zipLocalEntry name comp data.length crc ++
        zipCdEntry name comp.length data.length crc carrier.length ++
        ([80, 75, 5, 6, 0, 0, 0, 0, 1, 0, 1, 0] ++
          le4 (46 + name.length))).length =
        carrier.length + (30 + name.length + comp.length) +
          (46 + name.length) + 16 := by
      simp only [List.length_append, hLHlen, hCDSlen, le4_length,
        List.length_cons, List.length_nil]
    rw [hshE16]
    exact rd4_le4_at _ _ _ _ hpreE16.symm
  -- central-directory signature
  · have hshsig : carrier ++ (zipLocalEntry name comp data.length crc ++
        (zipCdEntry name comp.length data.length crc carrier.length ++
          zipEocd (46 + name.length)
            (carrier.length + (30 + name.length + comp.length)))) =
        (carrier ++ zipLocalEntry name comp data.length crc) ++
          ([80, 75, 1, 2] ++
            ([20, 0, 20, 0, 0, 0, 8, 0, 0, 0, 0, 0] ++ crc ++
              le4 comp.length ++ le4 data.length ++ le2 name.length ++
              [0, 0, 0, 0, 0, 0, 0, 0, 0, 0, 0, 0] ++ le4 carrier.length ++
              name ++
              zipEocd (46 + name.length)
                (carrier.length + (30 + name.length + comp.length)))) := by
      simp [zipCdEntry, List.append_assoc]
    rw [hshsig]
    refine pySlice_at _ _ _ _ _ ?_ rfl
    simp only [List.length_append, hLHlen]
  -- central-directory flags
  · have hshCD8 : carrier ++ (zipLocalEntry name comp data.length crc ++
        (zipCdEntry name comp.length data.length crc carrier.length ++
          zipEocd (46 + name.length)
            (carrier.length + (30 + name.length + comp.length)))) =
        (carrier ++ zipLocalEntry name comp data.length crc ++
          [80, 75, 1, 2, 20, 0, 20, 0]) ++
          (0 :: 0 :: ([8, 0, 0, 0, 0, 0] ++ crc ++ le4 comp.length ++
            le4 data.length ++ le2 name.length ++
            [0, 0, 0, 0, 0, 0, 0, 0, 0, 0, 0, 0] ++ le4 carrier.length ++
            name ++
            zipEocd (46 + name.length)
              (carrier.length + (30 + name.length + comp.length)))) := by
      simp [zipCdEntry, List.append_assoc]
    have hpreCD8 : (carrier ++ zipLocalEntry name comp data.length crc ++
        [80, 75, 1, 2, 20, 0, 20, 0]).length =
        carrier.length + (30 + name.length + comp.length) + 8 := by
      simp only [List.length_append, hLHlen, List.length_cons,
        List.length_nil]
    rw [hshCD8, rd2_at _ 0 0 _ _ hpreCD8.symm]
  -- central-directory compressed size
  · have hshCD20 : carrier ++ (zipLocalEntry name comp data.length crc ++
        (zipCdEntry name comp.length data.length crc carrier.length ++
          zipEocd (46 + name.length)
            (carrier.length + (30 + name.length + comp.length)))) =
        (carrier ++ zipLocalEntry name comp data.length crc ++
          ([80, 75, 1, 2, 20, 0, 20, 0, 0, 0, 8, 0, 0, 0, 0, 0] ++ crc)) ++
          (le4 comp.length ++ (le4 data.length ++ le2 name.length ++
            [0, 0, 0, 0, 0, 0, 0, 0, 0, 0, 0, 0] ++ le4 carrier.length ++
            name ++
            zipEocd (46 + name.length)
              (carrier.length + (30 + name.length + comp.length)))) := by
      simp [zipCdEntry, List.append_assoc]
    have hpreCD20 : (carrier ++ zipLocalEntry name comp data.length crc ++
        ([80, 75, 1, 2, 20, 0, 20, 0, 0, 0, 8, 0, 0, 0, 0, 0] ++
          crc)).length =
        carrier.length + (30 + name.length + comp.length) + 20 := by
      simp only [List.length_append, hLHlen, hcrc, List.length_cons,
        List.length_nil]
    rw [hshCD20]
    exact rd4_le4_at _ _ _ _ hpreCD20.symm
  -- central-directory name length
  · have hshCD28 : carrier ++ (zipLocalEntry name comp data.length crc ++
        (zipCdEntry name comp.length data.length crc carrier.length ++
          zipEocd (46 + name.length)
            (carrier.length + (30 + name.length + comp.length)))) =
        (carrier ++ zipLocalEntry name comp data.length crc ++
          ([80, 75, 1, 2, 20, 0, 20, 0, 0, 0, 8, 0, 0, 0, 0, 0] ++ crc ++
            le4 comp.length ++ le4 data.length)) ++
          (le2 name.length ++ ([0, 0, 0, 0, 0, 0, 0, 0, 0, 0, 0, 0] ++
            le4 carrier.length ++ name ++
            zipEocd (46 + name.length)
              (carrier.length + (30 + name.length + comp.length)))) := by
      simp [zipCdEntry, List.append_assoc]
    have hpreCD28 : (carrier ++ zipLocalEntry name comp data.length crc ++
        ([80, 75, 1, 2, 20, 0, 20, 0, 0, 0, 8, 0, 0, 0, 0, 0] ++ crc ++
          le4 comp.length ++ le4 data.length)).length =
        carrier.length + (30 + name.length + comp.length) + 28 := by
      simp only [List.length_append, hLHlen, hcrc, le4_length,
        List.length_cons, List.length_nil]
    rw [hshCD28]
    exact rd2_le2_at _ _ _ _ hpreCD28.symm
  -- central-directory local-header offset (patched to the carrier length)
  · have hshCD42 : carrier ++ (zipLocalEntry name comp data.length crc ++
        (zipCdEntry name comp.length data.length crc carrier.length ++
          zipEocd (46 + name.length)
            (carrier.length + (30 + name.length + comp.length)))) =
        (carrier ++ zipLocalEntry name comp data.length crc ++
          ([80, 75, 1, 2, 20, 0, 20, 0, 0, 0, 8, 0, 0, 0, 0, 0] ++ crc ++
            le4 comp.length ++ le4 data.length ++ le2 name.length ++
            [0, 0, 0, 0, 0, 0, 0, 0, 0, 0, 0, 0])) ++
          (le4 carrier.length ++ (name ++
            zipEocd (46 + name.length)
              (carrier.length + (30 + name.length + comp.length)))) := by
      simp [zipCdEntry, List.append_assoc]
    have hpreCD42 : (carrier ++ zipLocalEntry name comp data.length crc ++
        ([80, 75, 1, 2, 20, 0, 20, 0, 0, 0, 8, 0, 0, 0, 0, 0] ++ crc ++
          le4 comp.length ++ le4 data.length ++ le2 name.length ++
          [0, 0, 0, 0, 0, 0, 0, 0, 0, 0, 0, 0])).length =
        carrier.length + (30 + name.length + comp.length) + 42 := by
      simp only [List.length_append, hLHlen, hcrc, le4_length, le2_length,
        List.length_cons, List.length_nil]
    rw [hshCD42]
    exact rd4_le4_at _ _ _ _ hpreCD42.symm
  -- central-directory file name
  · have hshCD46 : carrier ++ (zipLocalEntry name comp data.length crc ++
        (zipCdEntry name comp.length data.length crc carrier.length ++
          zipEocd (46 + name.length)
            (carrier.length + (30 + name.length + comp.length)))) =
        (carrier ++ zipLocalEntry name comp data.length crc ++
          ([80, 75, 1, 2, 20, 0, 20, 0, 0, 0, 8, 0, 0, 0, 0, 0] ++ crc ++
            le4 comp.length ++ le4 data.length ++ le2 name.length ++
            [0, 0, 0, 0, 0, 0, 0, 0, 0, 0, 0, 0] ++ le4 carrier.length)) ++
          (name ++
            zipEocd (46 + name.length)
              (carrier.length + (30 + name.length + comp.length))) := by
      simp [zipCdEntry, List.append_assoc]
    have hpreCD46 : (carrier ++ zipLocalEntry name comp data.length crc ++
        ([80, 75, 1, 2, 20, 0, 20, 0, 0, 0, 8, 0, 0, 0, 0, 0] ++ crc ++
          le4 comp.length ++ le4 data.length ++ le2 name.length ++
          [0, 0, 0, 0, 0, 0, 0, 0, 0, 0, 0, 0] ++
          le4 carrier.length)).length =
        carrier.length + (30 + name.length + comp.length) + 46 := by
      simp only [List.length_append, hLHlen, hcrc, le4_length, le2_length,
        List.length_cons, List.length_nil]
    rw [hshCD46]
    exact pySlice_at _ _ _ _ _ hpreCD46.symm rfl
  -- local-header signature
  · have hshLHsig : carrier ++ (zipLocalEntry name comp data.length crc ++
        (zipCdEntry name comp.length data.length crc carrier.length ++
          zipEocd (46 + name.length)
            (carrier.length + (30 + name.length + comp.length)))) =
        carrier ++ ([80, 75, 3, 4] ++
          ([20, 0, 0, 0, 8, 0, 0, 0, 0, 0] ++ crc ++ le4 comp.length ++
            le4 data.length ++ le2 name.length ++ [0, 0] ++ name ++ comp ++
            (zipCdEntry name comp.length data.length crc carrier.length ++
              zipEocd (46 + name.length)
                (carrier.length + (30 + name.length + comp.length))))) := by
      simp [zipLocalEntry, List.append_assoc]
    rw [hshLHsig]
    exact pySlice_at _ _ _ _ _ rfl rfl
  -- local-header name length
  · have hshL26 : carrier ++ (zipLocalEntry name comp data.length crc ++
        (zipCdEntry name comp.length data.length crc carrier.length ++
          zipEocd (46 + name.length)
            (carrier.length + (30 + name.length + comp.length)))) =
        (carrier ++ ([80, 75, 3, 4, 20, 0, 0, 0, 8, 0, 0, 0, 0, 0] ++ crc ++
          le4 comp.length ++ le4 data.length)) ++
          (le2 name.length ++ (0 :: 0 :: (name ++ comp ++
            (zipCdEntry name comp.length data.length crc carrier.length ++
              zipEocd (46 + name.length)
                (carrier.length + (30 + name.length + comp.length)))))) := by
      simp [zipLocalEntry, List.append_assoc]
    have hpreL26 : (carrier ++
        ([80, 75, 3, 4, 20, 0, 0, 0, 8, 0, 0, 0, 0, 0] ++ crc ++
          le4 comp.length ++ le4 data.length)).length =
        carrier.length + 26 := by
      simp only [List.length_append, hcrc, le4_length, List.length_cons,
        List.length_nil]
    rw [hshL26]
    exact rd2_le2_at _ _ _ _ hpreL26.symm
  -- local-header extra length
  · have hshL28 : carrier ++ (zipLocalEntry name comp data.length crc ++
        (zipCdEntry name comp.length data.length crc carrier.length ++
          zipEocd (46 + name.length)
            (carrier.length + (30 + name.length + comp.length)))) =
        (carrier ++ ([80, 75, 3, 4, 20, 0, 0, 0, 8, 0, 0, 0, 0, 0] ++ crc ++
          le4 comp.length ++ le4 data.length ++ le2 name.length)) ++
          (0 :: 0 :: (name ++ comp ++
            (zipCdEntry name comp.length data.length crc carrier.length ++
              zipEocd (46 + name.length)
                (carrier.length + (30 + name.length + comp.length))))) := by
      simp [zipLocalEntry, List.append_assoc]
    have hpreL28 : (carrier ++
        ([80, 75, 3, 4, 20, 0, 0, 0, 8, 0, 0, 0, 0, 0] ++ crc ++
          le4 comp.length ++ le4 data.length ++ le2 name.length)).length =
        carrier.length + 28 := by
      simp only [List.length_append, hcrc, le4_length, le2_length,
        List.length_cons, List.length_nil]
    rw [hshL28, rd2_at _ 0 0 _ _ hpreL28.symm]
  -- local-header file name
  · have hshL30 : carrier ++ (zipLocalEntry name comp data.length crc ++
        (zipCdEntry name comp.length data.length crc carrier.length ++
          zipEocd (46 + name.length)
            (carrier.length + (30 + name.length + comp.length)))) =
        (carrier ++ ([80, 75, 3, 4, 20, 0, 0, 0, 8, 0, 0, 0, 0, 0] ++ crc ++
          le4 comp.length ++ le4 data.length ++ le2 name.length ++
          [0, 0])) ++
          (name ++ (comp ++
            (zipCdEntry name comp.length data.length crc carrier.length ++
              zipEocd (46 + name.length)
                (carrier.length + (30 + name.length + comp.length))))) := by
      simp [zipLocalEntry, List.append_assoc]
    have hpreL30 : (carrier ++
        ([80, 75, 3, 4, 20, 0, 0, 0, 8, 0, 0, 0, 0, 0] ++ crc ++
          le4 comp.length ++ le4 data.length ++ le2 name.length ++
          [0, 0])).length = carrier.length + 30 := by
      simp only [List.length_append, hcrc, le4_length, le2_length,
        List.length_cons, List.length_nil]
    rw [hshL30]
    exact pySlice_at _ _ _ _ _ hpreL30.symm rfl
  -- the stored deflate stream
  · have hshData : carrier ++ (zipLocalEntry name comp data.length crc ++
        (zipCdEntry name comp.length data.length crc carrier.length ++
          zipEocd (46 + name.length)
            (carrier.length + (30 + name.length + comp.length)))) =
        (carrier ++ ([80, 75, 3, 4, 20, 0, 0, 0, 8, 0, 0, 0, 0, 0] ++ crc ++
          le4 comp.length ++ le4 data.length ++ le2 name.length ++ [0, 0] ++
          name)) ++
          (comp ++
            (zipCdEntry name comp.length data.length crc carrier.length ++
              zipEocd (46 + name.length)
                (carrier.length + (30 + name.length + comp.length)))) := by
      simp [zipLocalEntry, List.append_assoc]
    have hpreData : (carrier ++
        ([80, 75, 3, 4, 20, 0, 0, 0, 8, 0, 0, 0, 0, 0] ++ crc ++
          le4 comp.length ++ le4 data.length ++ le2 name.length ++ [0, 0] ++
          name)).length = carrier.length + 30 + name.length := by
      simp only [List.length_append, hcrc, le4_length, le2_length,
        List.length_cons, List.length_nil]
      omega
    rw [hshData]
    exact pySlice_at _ _ _ _ _ hpreData.symm rfl


/-- The local-header flag word of the polyglot's embedded entry is zero:
the entry is not marked encrypted. -/
theorem polyLocalFlags (carrier name data comp crc : List Nat) :
    rd2 (carrier ++ (zipLocalEntry name comp data.length crc ++
      (zipCdEntry name comp.length data.length crc carrier.length ++
        zipEocd (46 + name.length)
          (carrier.length + (30 + name.length + comp.length)))))
      (carrier.length + 6) = 0 := by
  have hsh : carrier ++ (zipLocalEntry name comp data.length crc ++
      (zipCdEntry name comp.length data.length crc carrier.length ++
        zipEocd (46 + name.length)
          (carrier.length + (30 + name.length + comp.length)))) =
      (carrier ++ [80, 75, 3, 4, 20, 0]) ++
        (0 :: 0 :: ([8, 0, 0, 0, 0, 0] ++ crc ++ le4 comp.length ++
          le4 data.length ++ le2 name.length ++ [0, 0] ++ name ++ comp ++
          (zipCdEntry name comp.length data.length crc carrier.length ++
            zipEocd (46 + name.length)
              (carrier.length + (30 + name.length + comp.length))))) := by
    simp [zipLocalEntry, List.append_assoc]
  have hpre : (carrier ++ [80, 75, 3, 4, 20, 0]).length =
      carrier.length + 6 := by
    simp only [List.length_append, List.length_cons, List.length_nil]
  rw [hsh, rd2_at _ 0 0 _ _ hpre.symm]

/-- The central-directory flag word of the polyglot's embedded entry is
zero: the entry is not marked encrypted there either. -/
theorem polyCdFlags (carrier name data comp crc : List Nat)
    (hcrc : crc.length = 4) :
    rd2 (carrier ++ (zipLocalEntry name comp data.length crc ++
      (zipCdEntry name comp.length data.length crc carrier.length ++
        zipEocd (46 + name.length)
          (carrier.length + (30 + name.length + comp.length)))))
      (carrier.length + (30 + name.length + comp.length) + 8) = 0 := by
  have hLHlen := zipLocalEntry_length name comp data.length crc hcrc
  have hsh : carrier ++ (zipLocalEntry name comp data.length crc ++
      (zipCdEntry name comp.length data.length crc carrier.length ++
        zipEocd (46 + name.length)
          (carrier.length + (30 + name.length + comp.length)))) =
      (carrier ++ zipLocalEntry name comp data.length crc ++
        [80, 75, 1, 2, 20, 0, 20, 0]) ++
        (0 :: 0 :: ([8, 0, 0, 0, 0, 0] ++ crc ++ le4 comp.length ++
          le4 data.length ++ le2 name.length ++
          [0, 0, 0, 0, 0, 0, 0, 0, 0, 0, 0, 0] ++ le4 carrier.length ++
          name ++
          zipEocd (46 + name.length)
            (carrier.length + (30 + name.length + comp.length)))) := by
    simp [zipCdEntry, List.append_assoc]
  have hpre : (carrier ++ zipLocalEntry name comp data.length crc ++
      [80, 75, 1, 2, 20, 0, 20, 0]).length =
      carrier.length + (30 + name.length + comp.length) + 8 := by
    simp only [List.length_append, hLHlen, List.length_cons,
      List.length_nil]
  rw [hsh, rd2_at _ 0 0 _ _ hpre.symm]

/-- C2 (polyglot duality): every polyglot built by `create_polyglot`
without a password is the carrier's raw bytes followed by a one-entry
archive whose directory offsets are each increased by the carrier length,
and `extract_from_polyglot` on the polyglot bytes returns exactly the
hidden file's original bytes and its original name.  `decomp` is the zlib
inflation, constrained by its round-trip law at the entry's deflate
stream; the size bounds keep every patched field inside its ZIP record
width. -/
theorem C2_polyglot_roundtrip (hasPyz : Bool) (aesZip : List Nat)
    (decomp : List Nat → Option (List Nat))
    (pyzRead zcRead : List Nat → String → Except PolyError (List Nat × List Nat))
    (carrier name data comp crc poly : List Nat)
    (hcrc : crc.length = 4)
    (hS : carrier.length < 16777216)
    (hL : 30 + name.length + comp.length < 16777216)
    (hC : 46 + name.length < 65536)
    (hdecomp : decomp comp = some data)
    (hcreate : create_polyglot hasPyz aesZip carrier name data comp crc
      none = .ok poly) :
    poly = carrier ++ (zipLocalEntry name comp data.length crc ++
      (zipCdEntry name comp.length data.length crc carrier.length ++
        zipEocd (46 + name.length)
          (carrier.length + (30 + name.length + comp.length)))) ∧
    extract_from_polyglot decomp pyzRead zcRead hasPyz poly none =
      .ok (data, name) := by
  rw [create_polyglot_ok hasPyz aesZip carrier name data comp crc hcrc hS
    hL hC] at hcreate
  injection hcreate with hpoly
  subst hpoly
  exact ⟨rfl, extract_polyglot_ok hasPyz decomp pyzRead zcRead carrier name
    data comp crc hcrc hdecomp⟩

/-- Concrete instance of the polyglot round-trip: a 5-byte carrier and the
entry `n.t` holding bytes `[10, 20, 30]` deflated to `[7, 7]`. -/
theorem C2_polyglot_roundtrip_witness :
    ([9, 9, 9, 9, 9] ++ (zipLocalEntry [110, 46, 116] [7, 7]
      [10, 20, 30].length [1, 2, 3, 4] ++
      (zipCdEntry [110, 46, 116] [7, 7].length [10, 20, 30].length
        [1, 2, 3, 4] [9, 9, 9, 9, 9].length ++
        zipEocd (46 + [110, 46, 116].length)
          ([9, 9, 9, 9, 9].length +
            (30 + [110, 46, 116].length + [7, 7].length)))) : List Nat) =
      [9, 9, 9, 9, 9] ++ (zipLocalEntry [110, 46, 116] [7, 7]
        [10, 20, 30].length [1, 2, 3, 4] ++
        (zipCdEntry [110, 46, 116] [7, 7].length [10, 20, 30].length
          [1, 2, 3, 4] [9, 9, 9, 9, 9].length ++
          zipEocd (46 + [110, 46, 116].length)
            ([9, 9, 9, 9, 9].length +
              (30 + [110, 46, 116].length + [7, 7].length)))) ∧
    extract_from_polyglot
      (fun c => if c = [7, 7] then some [10, 20, 30] else none)
      (fun _ _ => .error .badZip) (fun _ _ => .error .badZip) false
      ([9, 9, 9, 9, 9] ++ (zipLocalEntry [110, 46, 116] [7, 7]
        [10, 20, 30].length [1, 2, 3, 4] ++
        (zipCdEntry [110, 46, 116] [7, 7].length [10, 20, 30].length
          [1, 2, 3, 4] [9, 9, 9, 9, 9].length ++
          zipEocd (46 + [110, 46, 116].length)
            ([9, 9, 9, 9, 9].length +
              (30 + [110, 46, 116].length + [7, 7].length))))) none =
      .ok ([10, 20, 30], [110, 46, 116]) :=
  C2_polyglot_roundtrip false []
    (fun c => if c = [7, 7] then some [10, 20, 30] else none)
    (fun _ _ => .error .badZip) (fun _ _ => .error .badZip)
    [9, 9, 9, 9, 9] [110, 46, 116] [10, 20, 30] [7, 7] [1, 2, 3, 4] _
    (by decide) (by decide) (by decide) (by decide) rfl
    (create_polyglot_ok false [] [9, 9, 9, 9, 9] [110, 46, 116]
      [10, 20, 30] [7, 7] [1, 2, 3, 4] (by decide) (by decide) (by decide)
      (by decide))

/-- C10 (silent pyzipper fallback): without pyzipper, `create_polyglot`
with a password produces byte-for-byte the same output as with no
password: creation succeeds with no error, both flag words of the stored
entry are zero (not marked encrypted), and `extract_from_polyglot`
recovers the hidden file's bytes with no password supplied. -/
theorem C10_pyzipper_fallback (aesZip : List Nat)
    (decomp : List Nat → Option (List Nat))
    (pyzRead zcRead : List Nat → String → Except PolyError (List Nat × List Nat))
    (carrier name data comp crc : List Nat) (pw : String)
    (hcrc : crc.length = 4)
    (hS : carrier.length < 16777216)
    (hL : 30 + name.length + comp.length < 16777216)
    (hC : 46 + name.length < 65536)
    (hdecomp : decomp comp = some data) :
    create_polyglot false aesZip carrier name data comp crc (some pw) =
      create_polyglot false aesZip carrier name data comp crc none ∧
    ∃ poly,
      create_polyglot false aesZip carrier name data comp crc (some pw) =
        .ok poly ∧
      rd2 poly (carrier.length + 6) = 0 ∧
      rd2 poly (carrier.length + (30 + name.length + comp.length) + 8) =
        0 ∧
      extract_from_polyglot decomp pyzRead zcRead false poly none =
        .ok (data, name) := by
  have hsame : create_polyglot false aesZip carrier name data comp crc
      (some pw) =
      create_polyglot false aesZip carrier name data comp crc none := by
    simp only [create_polyglot, Bool.and_false]
  refine ⟨hsame, carrier ++ (zipLocalEntry name comp data.length crc ++
    (zipCdEntry name comp.length data.length crc carrier.length ++
      zipEocd (46 + name.length)
        (carrier.length + (30 + name.length + comp.length)))),
    ?_, ?_, ?_, ?_⟩
  · rw [hsame]
    exact create_polyglot_ok false aesZip carrier name data comp crc hcrc
      hS hL hC
  · exact polyLocalFlags carrier name data comp crc
  · exact polyCdFlags carrier name data comp crc hcrc
  · exact extract_polyglot_ok false decomp pyzRead zcRead carrier name
      data comp crc hcrc hdecomp

/-- Concrete instance of the pyzipper fallback: password `"x"` is silently
ignored and the entry is recovered with no password. -/
theorem C10_pyzipper_fallback_witness :
    (create_polyglot false [] [9, 9, 9, 9, 9] [110, 46, 116] [10, 20, 30]
      [7, 7] [1, 2, 3, 4] (some "x") =
      create_polyglot false [] [9, 9, 9, 9, 9] [110, 46, 116] [10, 20, 30]
        [7, 7] [1, 2, 3, 4] none) ∧
    ∃ poly,
      create_polyglot false [] [9, 9, 9, 9, 9] [110, 46, 116] [10, 20, 30]
        [7, 7] [1, 2, 3, 4] (some "x") = .ok poly ∧
      rd2 poly (([9, 9, 9, 9, 9] : List Nat).length + 6) = 0 ∧
      rd2 poly (([9, 9, 9, 9, 9] : List Nat).length +
        (30 + ([110, 46, 116] : List Nat).length +
          ([7, 7] : List Nat).length) + 8) = 0 ∧
      extract_from_polyglot
        (fun c => if c = [7, 7] then some [10, 20, 30] else none)
        (fun _ _ => .error .badZip) (fun _ _ => .error .badZip) false poly
        none = .ok ([10, 20, 30], [110, 46, 116]) :=
  C10_pyzipper_fallback []
    (fun c => if c = [7, 7] then some [10, 20, 30] else none)
    (fun _ _ => .error .badZip) (fun _ _ => .error .badZip)
    [9, 9, 9, 9, 9] [110, 46, 116] [10, 20, 30] [7, 7] [1, 2, 3, 4] "x"
    (by decide) (by decide) (by decide) (by decide) rfl

end InvisioVault
